import Mathlib

/-!
# Verification of the Sudoku backtracking solver (`src/Sudoko.js`)

This file gives a shallow embedding of the constraint-checking backtracking
Sudoku solver of the repository (`isValid`, `findEmptyCell`, `solveSudoku`)
and proves the specification's claims about it.

The JavaScript board `board[i][j]` (a 9x9 array of numbers, `0` marking an
empty cell) is embedded as a `List (List Nat)`; the in-place mutation
`board[row][col] = num` becomes a functional update threaded through the
recursion, so the grid returned by a call is exactly the state the mutable
board is left in when the JavaScript function returns.  The `for` loops of
the source, which count an index upward to a fixed bound with early
`return`, are embedded as structural recursions on the number of remaining
loop iterations (`k`), carrying the loop index itself as a second argument;
this keeps every definition kernel-reducible so that concrete runs can be
established by `decide`/`rfl`.
-/

namespace Sudoku

/-- A board: a list of rows, each row a list of cell values
(`0` = empty, `1`-`9` = a placed digit). -/
abbrev Grid := List (List Nat)

/-- Read `board[i][j]`.  Out-of-range reads default to `0`; the claims only
concern well-formed 9x9 boards, where no out-of-range read occurs. -/
def cell (g : Grid) (i j : Nat) : Nat := (g.getD i []).getD j 0

/-- Write `board[i][j] = v` (the source mutates in place; here the updated
board is returned). -/
def setCell (g : Grid) (i j v : Nat) : Grid := g.set i ((g.getD i []).set j v)

/-- The board is a well-formed 9x9 grid: 9 rows of 9 cells. -/
def WF (g : Grid) : Prop := g.length = 9 ∧ ∀ row ∈ g, row.length = 9

/-- Every cell value is at most 9 (so with `0` for empty, in `[0, 9]`). -/
def inRange (g : Grid) : Prop := ∀ i, i < 9 → ∀ j, j < 9 → cell g i j ≤ 9

/-- No cell of the 9x9 board is `0`. -/
def noZero (g : Grid) : Prop := ∀ i, i < 9 → ∀ j, j < 9 → cell g i j ≠ 0

/-! ## `isValid` (source lines 10-32)

`for (let j = 0; j < 9; j++) if (board[row][j] === num) return false;` and
the analogous column and 3x3-box loops.  Each loop is a structural recursion
on the remaining trip count `k`, scanning the loop index upward. -/

/-- The row-check loop of `isValid`: scan `board[row][j]`, `board[row][j+1]`,
... for `k` steps, returning `false` on the first cell equal to `num`. -/
def rowScan (g : Grid) (row num : Nat) : Nat → Nat → Bool
  | 0, _ => true
  | k + 1, j => if cell g row j = num then false else rowScan g row num k (j + 1)

/-- The column-check loop of `isValid`. -/
def colScan (g : Grid) (col num : Nat) : Nat → Nat → Bool
  | 0, _ => true
  | k + 1, i => if cell g i col = num then false else colScan g col num k (i + 1)

/-- The inner loop of the box check of `isValid`: scan the 3 cells
`board[i][boxCol]`, `board[i][boxCol+1]`, `board[i][boxCol+2]`. -/
def boxCellScan (g : Grid) (num i : Nat) : Nat → Nat → Bool
  | 0, _ => true
  | k + 1, j => if cell g i j = num then false else boxCellScan g num i k (j + 1)

/-- The outer loop of the box check of `isValid`: scan rows `boxRow`,
`boxRow+1`, `boxRow+2`, each with the inner 3-cell scan. -/
def boxRowScan (g : Grid) (num boxCol : Nat) : Nat → Nat → Bool
  | 0, _ => true
  | k + 1, i =>
    if boxCellScan g num i 3 boxCol then boxRowScan g num boxCol k (i + 1)
    else false

/-- `isValid(board, row, col, num)` (source lines 10-32): `num` may be placed
at `(row, col)` iff it appears nowhere in row `row`, nowhere in column `col`,
and nowhere in the 3x3 box with top-left corner
`(Math.floor(row/3)*3, Math.floor(col/3)*3)`. -/
def isValid (g : Grid) (row col num : Nat) : Bool :=
  if rowScan g row num 9 0 then
    if colScan g col num 9 0 then
      boxRowScan g num (col / 3 * 3) 3 (row / 3 * 3)
    else false
  else false

/-! ## `findEmptyCell` (source lines 35-44) -/

/-- The inner loop of `findEmptyCell`: scan `board[i][j]`, `board[i][j+1]`,
... for `k` steps, returning the first index holding `0`. -/
def rowEmptyScan (g : Grid) (i : Nat) : Nat → Nat → Option Nat
  | 0, _ => none
  | k + 1, j => if cell g i j = 0 then some j else rowEmptyScan g i k (j + 1)

/-- The outer loop of `findEmptyCell`: scan rows `i`, `i+1`, ... -/
def findEmptyAux (g : Grid) : Nat → Nat → Option (Nat × Nat)
  | 0, _ => none
  | k + 1, i =>
    match rowEmptyScan g i 9 0 with
    | some j => some (i, j)
    | none => findEmptyAux g k (i + 1)

/-- `findEmptyCell(board)` (source lines 35-44): the first cell holding `0`
in row-major order, or `none` if there is no such cell. -/
def findEmptyCell (g : Grid) : Option (Nat × Nat) := findEmptyAux g 9 0

/-! ## `solveSudoku` (source lines 47-66)

The candidate loop `for (let num = 1; num <= 9; num++)` is embedded as a
structural recursion on the remaining trip count `k` (9 at entry, with
`num` starting at 1), with the recursive `solveSudoku` call abstracted as
`recur`.  On a failed recursive call the source executes
`board[row][col] = 0` (the backtrack step) and continues with the next
candidate; here the grid returned by the failed call is reset and threaded
on. -/

/-- The candidate loop body of `solveSudoku` (source lines 53-63). -/
def tryNums (recur : Grid → Bool × Grid) (row col : Nat) :
    Nat → Nat → Grid → Bool × Grid
  | 0, _, g => (false, g)
  | k + 1, num, g =>
    if isValid g row col num then
      match recur (setCell g row col num) with
      | (true, g2) => (true, g2)
      | (false, gf) => tryNums recur row col k (num + 1) (setCell gf row col 0)
    else tryNums recur row col k (num + 1) g

/-- `solveSudoku(board)` with explicit fuel: the source recursion terminates
because every recursive call strictly decreases the number of empty cells,
so any fuel exceeding that number yields the function the source computes
(`solveF_fuel_irrelevant` below). -/
def solveF : Nat → Grid → Bool × Grid
  | 0, g => (false, g)
  | fuel + 1, g =>
    match findEmptyCell g with
    | none => (true, g)
    | some (row, col) => tryNums (solveF fuel) row col 9 1 g

/-- The number of empty cells among the 81 cells of the board (the
termination measure of the search; not itself part of the source). -/
def countZeros (g : Grid) : Nat :=
  ∑ i ∈ Finset.range 9, ∑ j ∈ Finset.range 9, if cell g i j = 0 then 1 else 0

/-- `solveSudoku(board)` (source lines 47-66): returns the source's boolean
result together with the state the board is left in. -/
def solveSudoku (g : Grid) : Bool × Grid := solveF (countZeros g + 1) g

/-! ## Consistency: no digit occurs twice in a row, column, or box -/

/-- Positions `(r1, c1)` and `(r2, c2)` share a row, a column, or a 3x3 box
(the box of `(r, c)` is indexed by `(r / 3, c / 3)`). -/
def sameUnit (r1 c1 r2 c2 : Nat) : Prop :=
  r1 = r2 ∨ c1 = c2 ∨ (r1 / 3 = r2 / 3 ∧ c1 / 3 = c2 / 3)

instance (r1 c1 r2 c2 : Nat) : Decidable (sameUnit r1 c1 r2 c2) := by
  unfold sameUnit
  infer_instance

/-- Every non-zero cell satisfies the row/column/box uniqueness constraint
against every other cell of its units. -/
def consistent (g : Grid) : Prop :=
  ∀ r1, r1 < 9 → ∀ c1, c1 < 9 → ∀ r2, r2 < 9 → ∀ c2, c2 < 9 →
    sameUnit r1 c1 r2 c2 → ¬(r1 = r2 ∧ c1 = c2) → cell g r1 c1 ≠ 0 →
    cell g r2 c2 ≠ cell g r1 c1

/-! ## Placed-cell distinctness

Cells the solver filled (cells that were empty in the original board `g0`)
are distinct from every other cell of their units, because each was checked
by `isValid` against the whole board at placement time.  Conflicts between
two original givens are *not* excluded — `isValid` never re-examines
givens. -/

/-- Any cell that was empty in `g0` and is non-zero in `g` differs from every
other cell of its row, column, and box. -/
def placedDistinct (g0 g : Grid) : Prop :=
  ∀ r1, r1 < 9 → ∀ c1, c1 < 9 → ∀ r2, r2 < 9 → ∀ c2, c2 < 9 →
    sameUnit r1 c1 r2 c2 → ¬(r1 = r2 ∧ c1 = c2) → cell g0 r1 c1 = 0 →
    cell g r1 c1 ≠ 0 → cell g r2 c2 ≠ cell g r1 c1

/-! ## Extension and complete solutions -/

/-- `h` agrees with `g` on every non-zero (given) cell of `g`. -/
def extendsG (g h : Grid) : Prop :=
  ∀ i, i < 9 → ∀ j, j < 9 → cell g i j ≠ 0 → cell h i j = cell g i j

/-- A completely solved board: well-formed, values in range, all uniqueness
constraints satisfied, and no empty cell. -/
def solvedGrid (h : Grid) : Prop := WF h ∧ inRange h ∧ consistent h ∧ noZero h

/-! ## Nine distinct values in `[1, 9]` are a permutation of `1`-`9` -/

/-- The digits `1` through `9`. -/
def oneToNine : List Nat := [1, 2, 3, 4, 5, 6, 7, 8, 9]

/-! ## Rows, columns, and boxes as value lists -/

/-- The nine values of row `i`. -/
def rowList (g : Grid) (i : Nat) : List Nat :=
  (List.range 9).map (fun j => cell g i j)

/-- The nine values of column `j`. -/
def colList (g : Grid) (j : Nat) : List Nat :=
  (List.range 9).map (fun i => cell g i j)

/-- The nine values of box `b` (`b / 3` selects the band of rows, `b % 3`
the stack of columns), scanned in row-major order inside the box. -/
def boxList (g : Grid) (b : Nat) : List Nat :=
  (List.range 9).map (fun t => cell g (b / 3 * 3 + t / 3) (b % 3 * 3 + t % 3))

/-! ## Naked-singles propagation

A proof tool (not part of the source): repeatedly fill any empty cell that
has exactly one `isValid`-candidate.  Every solved extension of the board
must agree with each such forced placement, so if propagation reaches a
complete board, that board is the *unique* solved extension. -/

/-- The candidates at `(i, j)`, encoded as `num - 1` to reuse `List.range`. -/
def cands (g : Grid) (i j : Nat) : List Nat :=
  (List.range 9).filter (fun t => isValid g i j (t + 1))

/-- The sole element of a singleton list. -/
def theSingle : List Nat → Option Nat
  | [t] => some t
  | _ => none

/-- Fill cell `k` (row-major index) if it is empty and has exactly one
candidate. -/
def propagateCell (g : Grid) (k : Nat) : Grid :=
  if cell g (k / 9) (k % 9) = 0 then
    match theSingle (cands g (k / 9) (k % 9)) with
    | some t => setCell g (k / 9) (k % 9) (t + 1)
    | none => g
  else g

/-- One sweep over the 81 cells. -/
def fillPass (g : Grid) : Grid := (List.range 81).foldl propagateCell g

/-- `n` sweeps. -/
def propagate : Nat → Grid → Grid
  | 0, g => g
  | n + 1, g => propagate n (fillPass g)

/-! ## Decidability of the board predicates -/

instance (g : Grid) : Decidable (WF g) := by
  unfold WF
  exact instDecidableAnd

instance (g : Grid) : Decidable (inRange g) := by
  unfold inRange
  infer_instance

instance (g : Grid) : Decidable (noZero g) := by
  unfold noZero
  infer_instance

instance (g : Grid) : Decidable (consistent g) := by
  unfold consistent
  exact @Nat.decidableBallLT 9 _ (fun r1 hr1 =>
    @Nat.decidableBallLT 9 _ (fun c1 hc1 =>
      @Nat.decidableBallLT 9 _ (fun r2 hr2 =>
        @Nat.decidableBallLT 9 _ (fun c2 hc2 => inferInstance))))

instance (g h : Grid) : Decidable (extendsG g h) := by
  unfold extendsG
  infer_instance

instance (g : Grid) : Decidable (solvedGrid g) := by
  unfold solvedGrid
  infer_instance

instance (g0 g : Grid) : Decidable (placedDistinct g0 g) := by
  unfold placedDistinct
  exact @Nat.decidableBallLT 9 _ (fun r1 hr1 =>
    @Nat.decidableBallLT 9 _ (fun c1 hc1 =>
      @Nat.decidableBallLT 9 _ (fun r2 hr2 =>
        @Nat.decidableBallLT 9 _ (fun c2 hc2 => inferInstance))))

/-! ## Concrete boards -/

/-- The canonical example puzzle (source lines 109-122, `loadExample`, with
blank cells as `0`). -/
def exGrid : Grid :=
  [[5, 3, 0, 0, 7, 0, 0, 0, 0],
   [6, 0, 0, 1, 9, 5, 0, 0, 0],
   [0, 9, 8, 0, 0, 0, 0, 6, 0],
   [8, 0, 0, 0, 6, 0, 0, 0, 3],
   [4, 0, 0, 8, 0, 3, 0, 0, 1],
   [7, 0, 0, 0, 2, 0, 0, 0, 6],
   [0, 6, 0, 0, 0, 0, 2, 8, 0],
   [0, 0, 0, 4, 1, 9, 0, 0, 5],
   [0, 0, 0, 0, 8, 0, 0, 7, 9]]

/-- The standard solution of the canonical example puzzle. -/
def exSolution : Grid :=
  [[5, 3, 4, 6, 7, 8, 9, 1, 2],
   [6, 7, 2, 1, 9, 5, 3, 4, 8],
   [1, 9, 8, 3, 4, 2, 5, 6, 7],
   [8, 5, 9, 7, 6, 1, 4, 2, 3],
   [4, 2, 6, 8, 5, 3, 7, 9, 1],
   [7, 1, 3, 9, 2, 4, 8, 5, 6],
   [9, 6, 1, 5, 3, 7, 2, 8, 4],
   [2, 8, 7, 4, 1, 9, 6, 3, 5],
   [3, 4, 5, 2, 8, 6, 1, 7, 9]]

/-- Two `1`s in row 0 (and in box 0), all other cells empty. -/
def grid11 : Grid :=
  [[1, 1, 0, 0, 0, 0, 0, 0, 0],
   [0, 0, 0, 0, 0, 0, 0, 0, 0],
   [0, 0, 0, 0, 0, 0, 0, 0, 0],
   [0, 0, 0, 0, 0, 0, 0, 0, 0],
   [0, 0, 0, 0, 0, 0, 0, 0, 0],
   [0, 0, 0, 0, 0, 0, 0, 0, 0],
   [0, 0, 0, 0, 0, 0, 0, 0, 0],
   [0, 0, 0, 0, 0, 0, 0, 0, 0],
   [0, 0, 0, 0, 0, 0, 0, 0, 0]]

/-- A completely filled board in which every digit is `1`: it violates every
uniqueness constraint, yet has no empty cell. -/
def allOnes : Grid :=
  [[1, 1, 1, 1, 1, 1, 1, 1, 1],
   [1, 1, 1, 1, 1, 1, 1, 1, 1],
   [1, 1, 1, 1, 1, 1, 1, 1, 1],
   [1, 1, 1, 1, 1, 1, 1, 1, 1],
   [1, 1, 1, 1, 1, 1, 1, 1, 1],
   [1, 1, 1, 1, 1, 1, 1, 1, 1],
   [1, 1, 1, 1, 1, 1, 1, 1, 1],
   [1, 1, 1, 1, 1, 1, 1, 1, 1],
   [1, 1, 1, 1, 1, 1, 1, 1, 1]]

/-- One empty cell at `(8, 8)` and no digit placeable there (row 8 already
holds `1`-`8`, column 8 holds `9`): the search fails after nine candidate
checks. -/
def gBad : Grid :=
  [[1, 1, 1, 1, 1, 1, 1, 1, 9],
   [1, 1, 1, 1, 1, 1, 1, 1, 1],
   [1, 1, 1, 1, 1, 1, 1, 1, 1],
   [1, 1, 1, 1, 1, 1, 1, 1, 1],
   [1, 1, 1, 1, 1, 1, 1, 1, 1],
   [1, 1, 1, 1, 1, 1, 1, 1, 1],
   [1, 1, 1, 1, 1, 1, 1, 1, 1],
   [1, 1, 1, 1, 1, 1, 1, 1, 1],
   [1, 2, 3, 4, 5, 6, 7, 8, 0]]

/-- The solution grid with its last cell blanked: a consistent board with a
single empty cell. -/
def gOne : Grid :=
  [[5, 3, 4, 6, 7, 8, 9, 1, 2],
   [6, 7, 2, 1, 9, 5, 3, 4, 8],
   [1, 9, 8, 3, 4, 2, 5, 6, 7],
   [8, 5, 9, 7, 6, 1, 4, 2, 3],
   [4, 2, 6, 8, 5, 3, 7, 9, 1],
   [7, 1, 3, 9, 2, 4, 8, 5, 6],
   [9, 6, 1, 5, 3, 7, 2, 8, 4],
   [2, 8, 7, 4, 1, 9, 6, 3, 5],
   [3, 4, 5, 2, 8, 6, 1, 7, 0]]

/-- Successive `fillPass` states of the canonical example (used to settle
the propagation run one sweep at a time). -/
def fpass1 : Grid :=
  [[5, 3, 0, 0, 7, 0, 0, 0, 0],
   [6, 0, 0, 1, 9, 5, 0, 0, 0],
   [0, 9, 8, 0, 0, 0, 0, 6, 0],
   [8, 0, 0, 0, 6, 0, 0, 0, 3],
   [4, 0, 0, 8, 5, 3, 0, 0, 1],
   [7, 0, 0, 9, 2, 0, 0, 0, 6],
   [0, 6, 0, 0, 3, 7, 2, 8, 4],
   [0, 0, 0, 4, 1, 9, 0, 3, 5],
   [0, 0, 0, 0, 8, 0, 0, 7, 9]]

def fpass2 : Grid :=
  [[5, 3, 0, 0, 7, 0, 0, 0, 0],
   [6, 0, 0, 1, 9, 5, 0, 0, 0],
   [0, 9, 8, 0, 4, 2, 0, 6, 7],
   [8, 0, 0, 7, 6, 0, 0, 0, 3],
   [4, 2, 0, 8, 5, 3, 0, 9, 1],
   [7, 0, 0, 9, 2, 0, 0, 0, 6],
   [0, 6, 0, 5, 3, 7, 2, 8, 4],
   [2, 0, 7, 4, 1, 9, 6, 3, 5],
   [0, 0, 0, 0, 8, 6, 1, 7, 9]]

def fpass3 : Grid :=
  [[5, 3, 0, 6, 7, 8, 0, 0, 2],
   [6, 0, 0, 1, 9, 5, 0, 4, 8],
   [1, 9, 8, 3, 4, 2, 5, 6, 7],
   [8, 0, 0, 7, 6, 0, 4, 0, 3],
   [4, 2, 6, 8, 5, 3, 7, 9, 1],
   [7, 0, 0, 9, 2, 0, 8, 5, 6],
   [9, 6, 1, 5, 3, 7, 2, 8, 4],
   [2, 8, 7, 4, 1, 9, 6, 3, 5],
   [3, 0, 0, 2, 8, 6, 1, 7, 9]]

def fpass4 : Grid :=
  [[5, 3, 4, 6, 7, 8, 9, 1, 2],
   [6, 7, 2, 1, 9, 5, 3, 4, 8],
   [1, 9, 8, 3, 4, 2, 5, 6, 7],
   [8, 0, 0, 7, 6, 1, 4, 2, 3],
   [4, 2, 6, 8, 5, 3, 7, 9, 1],
   [7, 1, 3, 9, 2, 4, 8, 5, 6],
   [9, 6, 1, 5, 3, 7, 2, 8, 4],
   [2, 8, 7, 4, 1, 9, 6, 3, 5],
   [3, 0, 5, 2, 8, 6, 1, 7, 9]]

/-! # Theorems -/

/-! ## Basic facts about `cell` and `setCell` -/

theorem getD_set {α : Type} (l : List α) (n : Nat) (a d : α) (j : Nat) :
    (l.set n a).getD j d = if j = n ∧ n < l.length then a else l.getD j d := by
  rw [List.getD_eq_getElem?_getD, List.getD_eq_getElem?_getD, List.getElem?_set]
  by_cases h1 : n = j
  · subst h1
    by_cases h2 : n < l.length
    · simp [h2]
    · rw [if_pos rfl, if_neg h2, if_neg (fun hc : n = n ∧ n < l.length => h2 hc.2),
        List.getElem?_eq_none (by omega)]
  · rw [if_neg h1, if_neg (fun hc => h1 hc.1.symm)]

theorem set_self_of_getD {α : Type} {l : List α} {n : Nat} {d : α}
    (h : l.getD n d = d) : l.set n d = l := by
  by_cases hn : n < l.length
  · apply List.ext_getElem (by simp)
    intro m h1 h2
    rw [List.getElem_set]
    split
    · subst m
      rw [List.getD_eq_getElem?_getD, List.getElem?_eq_getElem hn] at h
      exact h.symm
    · rfl
  · exact List.set_eq_of_length_le (by omega)

theorem row_length {g : Grid} (hwf : WF g) {i : Nat} (hi : i < 9) :
    (g.getD i []).length = 9 := by
  obtain ⟨hlen, hrow⟩ := hwf
  have hi' : i < g.length := by omega
  rw [List.getD_eq_getElem?_getD, List.getElem?_eq_getElem hi']
  exact hrow _ (List.getElem_mem hi')

theorem getD_setCell (g : Grid) (r c v i : Nat) :
    (setCell g r c v).getD i [] =
      if i = r ∧ r < g.length then (g.getD r []).set c v else g.getD i [] := by
  unfold setCell
  rw [getD_set]

theorem cell_setCell_ne (g : Grid) {r c i j : Nat} (v : Nat)
    (h : ¬(i = r ∧ j = c)) : cell (setCell g r c v) i j = cell g i j := by
  unfold cell
  rw [getD_setCell]
  by_cases hir : i = r ∧ r < g.length
  · obtain ⟨rfl, hr⟩ := hir
    rw [if_pos ⟨rfl, hr⟩, getD_set]
    have hjc : j ≠ c := fun hj => h ⟨rfl, hj⟩
    rw [if_neg (fun hcon => hjc hcon.1)]
  · rw [if_neg hir]

theorem cell_setCell_self {g : Grid} (hwf : WF g) {r c : Nat} (hr : r < 9)
    (hc : c < 9) (v : Nat) : cell (setCell g r c v) r c = v := by
  have hrl : r < g.length := by rw [hwf.1]; omega
  have hcl : c < (g.getD r []).length := by rw [row_length hwf hr]; omega
  unfold cell
  rw [getD_setCell, if_pos ⟨rfl, hrl⟩, getD_set, if_pos ⟨rfl, hcl⟩]

theorem WF_setCell {g : Grid} (hwf : WF g) (r c v : Nat) :
    WF (setCell g r c v) := by
  obtain ⟨hlen, hrow⟩ := hwf
  by_cases hr : r < g.length
  · refine ⟨by simp [setCell, hlen], fun row hmem => ?_⟩
    rcases List.mem_or_eq_of_mem_set hmem with hm | rfl
    · exact hrow _ hm
    · rw [List.length_set]
      exact row_length ⟨hlen, hrow⟩ (by omega)
  · unfold setCell
    rw [List.set_eq_of_length_le (by omega)]
    exact ⟨hlen, hrow⟩

theorem setCell_setCell (g : Grid) (r c v w : Nat) :
    setCell (setCell g r c v) r c w = setCell g r c w := by
  by_cases hr : r < g.length
  · show (setCell g r c v).set r (((setCell g r c v).getD r []).set c w) = _
    rw [getD_setCell, if_pos ⟨rfl, hr⟩, List.set_set]
    unfold setCell
    rw [List.set_set]
  · have h1 : setCell g r c v = g := by
      unfold setCell
      exact List.set_eq_of_length_le (by omega)
    rw [h1]

theorem set_getD_self {α : Type} (l : List α) (n : Nat) (d : α) :
    l.set n (l.getD n d) = l := by
  by_cases hn : n < l.length
  · apply List.ext_getElem (by simp)
    intro m h1 h2
    rw [List.getElem_set]
    split
    · subst m
      rw [List.getD_eq_getElem?_getD, List.getElem?_eq_getElem hn]
      rfl
    · rfl
  · exact List.set_eq_of_length_le (by omega)

theorem setCell_zero_self {g : Grid} {r c : Nat} (h0 : cell g r c = 0) :
    setCell g r c 0 = g := by
  have h0' : (g.getD r []).getD c 0 = 0 := h0
  unfold setCell
  rw [set_self_of_getD h0']
  exact set_getD_self g r []

/-! ## Characterization of `isValid` -/

theorem rowScan_true_iff (g : Grid) (row num : Nat) :
    ∀ k j, rowScan g row num k j = true ↔ ∀ t, t < k → cell g row (j + t) ≠ num := by
  intro k
  induction k with
  | zero =>
    intro j
    exact ⟨fun _ t ht => absurd ht (by omega), fun _ => rfl⟩
  | succ k ih =>
    intro j
    unfold rowScan
    by_cases h : cell g row j = num
    · rw [if_pos h]
      constructor
      · intro hf
        exact absurd hf (by simp)
      · intro hall
        have h0 := hall 0 (by omega)
        rw [Nat.add_zero] at h0
        exact absurd h h0
    · rw [if_neg h, ih]
      constructor
      · intro hall t ht
        match t with
        | 0 =>
          rw [Nat.add_zero]
          exact h
        | t + 1 =>
          have hx := hall t (by omega)
          have heq : j + 1 + t = j + (t + 1) := by omega
          rwa [heq] at hx
      · intro hall t ht
        have hx := hall (t + 1) (by omega)
        have heq : j + (t + 1) = j + 1 + t := by omega
        rwa [heq] at hx

theorem colScan_true_iff (g : Grid) (col num : Nat) :
    ∀ k i, colScan g col num k i = true ↔ ∀ t, t < k → cell g (i + t) col ≠ num := by
  intro k
  induction k with
  | zero =>
    intro i
    exact ⟨fun _ t ht => absurd ht (by omega), fun _ => rfl⟩
  | succ k ih =>
    intro i
    unfold colScan
    by_cases h : cell g i col = num
    · rw [if_pos h]
      constructor
      · intro hf
        exact absurd hf (by simp)
      · intro hall
        have h0 := hall 0 (by omega)
        rw [Nat.add_zero] at h0
        exact absurd h h0
    · rw [if_neg h, ih]
      constructor
      · intro hall t ht
        match t with
        | 0 =>
          rw [Nat.add_zero]
          exact h
        | t + 1 =>
          have hx := hall t (by omega)
          have heq : i + 1 + t = i + (t + 1) := by omega
          rwa [heq] at hx
      · intro hall t ht
        have hx := hall (t + 1) (by omega)
        have heq : i + (t + 1) = i + 1 + t := by omega
        rwa [heq] at hx

theorem boxCellScan_true_iff (g : Grid) (num i : Nat) :
    ∀ k j, boxCellScan g num i k j = true ↔ ∀ t, t < k → cell g i (j + t) ≠ num := by
  intro k
  induction k with
  | zero =>
    intro j
    exact ⟨fun _ t ht => absurd ht (by omega), fun _ => rfl⟩
  | succ k ih =>
    intro j
    unfold boxCellScan
    by_cases h : cell g i j = num
    · rw [if_pos h]
      constructor
      · intro hf
        exact absurd hf (by simp)
      · intro hall
        have h0 := hall 0 (by omega)
        rw [Nat.add_zero] at h0
        exact absurd h h0
    · rw [if_neg h, ih]
      constructor
      · intro hall t ht
        match t with
        | 0 =>
          rw [Nat.add_zero]
          exact h
        | t + 1 =>
          have hx := hall t (by omega)
          have heq : j + 1 + t = j + (t + 1) := by omega
          rwa [heq] at hx
      · intro hall t ht
        have hx := hall (t + 1) (by omega)
        have heq : j + (t + 1) = j + 1 + t := by omega
        rwa [heq] at hx

theorem boxRowScan_true_iff (g : Grid) (num boxCol : Nat) :
    ∀ k i, boxRowScan g num boxCol k i = true ↔
      ∀ a, a < k → boxCellScan g num (i + a) 3 boxCol = true := by
  intro k
  induction k with
  | zero =>
    intro i
    exact ⟨fun _ a ha => absurd ha (by omega), fun _ => rfl⟩
  | succ k ih =>
    intro i
    unfold boxRowScan
    by_cases h : boxCellScan g num i 3 boxCol = true
    · rw [if_pos h, ih]
      constructor
      · intro hall a ha
        match a with
        | 0 =>
          rw [Nat.add_zero]
          exact h
        | a + 1 =>
          have hx := hall a (by omega)
          have heq : i + 1 + a = i + (a + 1) := by omega
          rwa [heq] at hx
      · intro hall a ha
        have hx := hall (a + 1) (by omega)
        have heq : i + (a + 1) = i + 1 + a := by omega
        rwa [heq] at hx
    · rw [if_neg h]
      constructor
      · intro hf
        exact absurd hf (by simp)
      · intro hall
        have h0 := hall 0 (by omega)
        rw [Nat.add_zero] at h0
        exact absurd h0 h

/-- The specification of `isValid`: it accepts `num` at `(row, col)` iff `num`
occurs in no cell of row `row`, no cell of column `col`, and no cell of the
3x3 box containing `(row, col)` (the box is scanned from its top-left corner
`(row / 3 * 3, col / 3 * 3)`). -/
theorem isValid_true_iff (g : Grid) (row col num : Nat) :
    isValid g row col num = true ↔
      (∀ j, j < 9 → cell g row j ≠ num) ∧ (∀ i, i < 9 → cell g i col ≠ num) ∧
      (∀ a, a < 3 → ∀ b, b < 3 →
        cell g (row / 3 * 3 + a) (col / 3 * 3 + b) ≠ num) := by
  have hrow : rowScan g row num 9 0 = true ↔ ∀ j, j < 9 → cell g row j ≠ num := by
    rw [rowScan_true_iff]
    constructor
    · intro h j hj
      have hx := h j hj
      rwa [Nat.zero_add] at hx
    · intro h t ht
      rw [Nat.zero_add]
      exact h t ht
  have hcol : colScan g col num 9 0 = true ↔ ∀ i, i < 9 → cell g i col ≠ num := by
    rw [colScan_true_iff]
    constructor
    · intro h i hi
      have hx := h i hi
      rwa [Nat.zero_add] at hx
    · intro h t ht
      rw [Nat.zero_add]
      exact h t ht
  have hbox : boxRowScan g num (col / 3 * 3) 3 (row / 3 * 3) = true ↔
      ∀ a, a < 3 → ∀ b, b < 3 →
        cell g (row / 3 * 3 + a) (col / 3 * 3 + b) ≠ num := by
    rw [boxRowScan_true_iff]
    apply forall_congr'
    intro a
    apply imp_congr_right
    intro _
    exact boxCellScan_true_iff g num (row / 3 * 3 + a) 3 (col / 3 * 3)
  unfold isValid
  by_cases h1 : rowScan g row num 9 0 = true
  · rw [if_pos h1]
    by_cases h2 : colScan g col num 9 0 = true
    · rw [if_pos h2, hbox]
      exact ⟨fun hb => ⟨hrow.mp h1, hcol.mp h2, hb⟩, fun hc => hc.2.2⟩
    · rw [if_neg h2]
      constructor
      · intro hf
        exact absurd hf (by simp)
      · intro hc
        exact absurd (hcol.mpr hc.2.1) h2
  · rw [if_neg h1]
    constructor
    · intro hf
      exact absurd hf (by simp)
    · intro hc
      exact absurd (hrow.mpr hc.1) h1

/-! ## Characterization of `findEmptyCell` -/

theorem rowEmptyScan_eq_none_iff (g : Grid) (i : Nat) :
    ∀ k j, rowEmptyScan g i k j = none ↔ ∀ t, t < k → cell g i (j + t) ≠ 0 := by
  intro k
  induction k with
  | zero =>
    intro j
    exact ⟨fun _ t ht => absurd ht (by omega), fun _ => rfl⟩
  | succ k ih =>
    intro j
    unfold rowEmptyScan
    by_cases h : cell g i j = 0
    · rw [if_pos h]
      constructor
      · intro hf
        exact absurd hf (by simp)
      · intro hall
        have h0 := hall 0 (by omega)
        rw [Nat.add_zero] at h0
        exact absurd h h0
    · rw [if_neg h, ih]
      constructor
      · intro hall t ht
        match t with
        | 0 =>
          rw [Nat.add_zero]
          exact h
        | t + 1 =>
          have hx := hall t (by omega)
          have heq : j + 1 + t = j + (t + 1) := by omega
          rwa [heq] at hx
      · intro hall t ht
        have hx := hall (t + 1) (by omega)
        have heq : j + (t + 1) = j + 1 + t := by omega
        rwa [heq] at hx

theorem rowEmptyScan_eq_some_iff (g : Grid) (i : Nat) :
    ∀ k j j', rowEmptyScan g i k j = some j' ↔
      j ≤ j' ∧ j' < j + k ∧ cell g i j' = 0 ∧
        ∀ t, j ≤ t → t < j' → cell g i t ≠ 0 := by
  intro k
  induction k with
  | zero =>
    intro j j'
    constructor
    · intro hf
      exact absurd hf (by simp [rowEmptyScan])
    · intro ⟨h1, h2, _⟩
      omega
  | succ k ih =>
    intro j j'
    unfold rowEmptyScan
    by_cases h : cell g i j = 0
    · rw [if_pos h]
      simp only [Option.some.injEq]
      constructor
      · intro hj
        subst hj
        exact ⟨Nat.le_refl j, by omega, h, fun t h1 h2 => absurd h1 (by omega)⟩
      · intro ⟨h1, _, h3, h4⟩
        by_contra hne
        exact h4 j (Nat.le_refl j) (by omega) h
    · rw [if_neg h, ih]
      constructor
      · intro ⟨h1, h2, h3, h4⟩
        refine ⟨by omega, by omega, h3, fun t ht1 ht2 => ?_⟩
        rcases Nat.eq_or_lt_of_le ht1 with rfl | hlt
        · exact h
        · exact h4 t (by omega) ht2
      · intro ⟨h1, h2, h3, h4⟩
        have hne : j' ≠ j := fun hj => by
          subst hj
          exact h h3
        refine ⟨by omega, by omega, h3, fun t ht1 ht2 => h4 t (by omega) ht2⟩

theorem findEmptyAux_eq_none_iff (g : Grid) :
    ∀ k i, findEmptyAux g k i = none ↔
      ∀ a, a < k → ∀ j, j < 9 → cell g (i + a) j ≠ 0 := by
  intro k
  induction k with
  | zero =>
    intro i
    exact ⟨fun _ a ha => absurd ha (by omega), fun _ => rfl⟩
  | succ k ih =>
    intro i
    unfold findEmptyAux
    cases hrs : rowEmptyScan g i 9 0 with
    | some j =>
      simp only []
      constructor
      · intro hf
        exact absurd hf (by simp)
      · intro hall
        obtain ⟨_, hlt, hz, _⟩ := (rowEmptyScan_eq_some_iff g i 9 0 j).mp hrs
        have := hall 0 (by omega) j (by omega)
        rw [Nat.add_zero] at this
        exact absurd hz this
    | none =>
      simp only []
      rw [ih]
      have hrow : ∀ j, j < 9 → cell g i j ≠ 0 := by
        intro j hj
        have := (rowEmptyScan_eq_none_iff g i 9 0).mp hrs j hj
        rwa [Nat.zero_add] at this
      constructor
      · intro hall a ha j hj
        match a with
        | 0 =>
          rw [Nat.add_zero]
          exact hrow j hj
        | a + 1 =>
          have hx := hall a (by omega) j hj
          have heq : i + 1 + a = i + (a + 1) := by omega
          rwa [heq] at hx
      · intro hall a ha j hj
        have hx := hall (a + 1) (by omega) j hj
        have heq : i + (a + 1) = i + 1 + a := by omega
        rwa [heq] at hx

theorem findEmptyAux_eq_some_iff (g : Grid) :
    ∀ k i r c, findEmptyAux g k i = some (r, c) ↔
      i ≤ r ∧ r < i + k ∧ c < 9 ∧ cell g r c = 0 ∧
        (∀ a, i ≤ a → a < r → ∀ j, j < 9 → cell g a j ≠ 0) ∧
        ∀ j, j < c → cell g r j ≠ 0 := by
  intro k
  induction k with
  | zero =>
    intro i r c
    constructor
    · intro hf
      exact absurd hf (by simp [findEmptyAux])
    · intro ⟨h1, h2, _⟩
      omega
  | succ k ih =>
    intro i r c
    unfold findEmptyAux
    cases hrs : rowEmptyScan g i 9 0 with
    | some j =>
      obtain ⟨_, hj9, hz, hpre⟩ := (rowEmptyScan_eq_some_iff g i 9 0 j).mp hrs
      simp only [Option.some.injEq, Prod.mk.injEq]
      constructor
      · intro ⟨hr, hc⟩
        subst hr
        subst hc
        refine ⟨Nat.le_refl i, by omega, by omega, hz,
          fun a h1 h2 => absurd h1 (by omega),
          fun j' hj' => hpre j' (by omega) hj'⟩
      · intro ⟨h1, h2, h3, h4, h5, h6⟩
        have hri : r = i := by
          by_contra hne
          exact (h5 i (Nat.le_refl i) (by omega) j (by omega)) hz
        subst hri
        refine ⟨rfl, ?_⟩
        rcases Nat.lt_trichotomy c j with hlt | heq | hgt
        · exact absurd h4 (by exact hpre c (by omega) hlt)
        · exact heq.symm
        · exact absurd hz (h6 j hgt)
    | none =>
      simp only []
      rw [ih]
      have hrow : ∀ j, j < 9 → cell g i j ≠ 0 := by
        intro j hj
        have := (rowEmptyScan_eq_none_iff g i 9 0).mp hrs j hj
        rwa [Nat.zero_add] at this
      constructor
      · intro ⟨h1, h2, h3, h4, h5, h6⟩
        have hir : i ≠ r := by
          intro hei
          subst hei
          exact (hrow c h3) h4
        refine ⟨by omega, by omega, h3, h4, fun a ha1 ha2 j hj => ?_, h6⟩
        rcases Nat.eq_or_lt_of_le ha1 with rfl | hlt
        · exact hrow j hj
        · exact h5 a (by omega) ha2 j hj
      · intro ⟨h1, h2, h3, h4, h5, h6⟩
        have hir : i ≠ r := by
          intro hei
          subst hei
          exact (hrow c h3) h4
        exact ⟨by omega, by omega, h3, h4,
          fun a ha1 ha2 j hj => h5 a (by omega) ha2 j hj, h6⟩

/-- `findEmptyCell` returns `none` exactly when every cell is non-zero. -/
theorem findEmptyCell_eq_none_iff (g : Grid) :
    findEmptyCell g = none ↔ noZero g := by
  unfold findEmptyCell noZero
  rw [findEmptyAux_eq_none_iff]
  constructor
  · intro hall i hi j hj
    have hx := hall i hi j hj
    rwa [Nat.zero_add] at hx
  · intro hall a ha j hj
    rw [Nat.zero_add]
    exact hall a ha j hj

/-- `findEmptyCell` returns `some (r, c)` exactly when `(r, c)` is the first
cell holding `0` in row-major order. -/
theorem findEmptyCell_eq_some_iff (g : Grid) (r c : Nat) :
    findEmptyCell g = some (r, c) ↔
      r < 9 ∧ c < 9 ∧ cell g r c = 0 ∧
        ∀ r' c', r' < 9 → c' < 9 → (r' < r ∨ (r' = r ∧ c' < c)) →
          cell g r' c' ≠ 0 := by
  unfold findEmptyCell
  rw [findEmptyAux_eq_some_iff]
  constructor
  · intro ⟨_, h2, h3, h4, h5, h6⟩
    refine ⟨by omega, h3, h4, fun r' c' hr' hc' hord => ?_⟩
    rcases hord with hlt | ⟨rfl, hlt⟩
    · exact h5 r' (by omega) hlt c' hc'
    · exact h6 c' hlt
  · intro ⟨h1, h2, h3, h4⟩
    exact ⟨by omega, by omega, h2, h3,
      fun a _ ha2 j hj => h4 a j (by omega) hj (Or.inl ha2),
      fun j hj => h4 r j h1 (by omega) (Or.inr ⟨rfl, hj⟩)⟩

/-- If `findEmptyCell` locates a cell, that cell is in range and holds `0`. -/
theorem findEmptyCell_some_facts {g : Grid} {r c : Nat}
    (h : findEmptyCell g = some (r, c)) :
    r < 9 ∧ c < 9 ∧ cell g r c = 0 := by
  obtain ⟨h1, h2, h3, _⟩ := (findEmptyCell_eq_some_iff g r c).mp h
  exact ⟨h1, h2, h3⟩

/-! ## Unfolding lemmas for the solver recursion -/

theorem tryNums_zero (recur : Grid → Bool × Grid) (row col num : Nat)
    (g : Grid) : tryNums recur row col 0 num g = (false, g) := rfl

theorem tryNums_step_true {recur : Grid → Bool × Grid} {row col num : Nat}
    {g g2 : Grid} (k : Nat) (hv : isValid g row col num = true)
    (hres : recur (setCell g row col num) = (true, g2)) :
    tryNums recur row col (k + 1) num g = (true, g2) := by
  unfold tryNums
  rw [if_pos hv, hres]

theorem tryNums_step_false {recur : Grid → Bool × Grid} {row col num : Nat}
    {g gf : Grid} (k : Nat) (hv : isValid g row col num = true)
    (hres : recur (setCell g row col num) = (false, gf)) :
    tryNums recur row col (k + 1) num g =
      tryNums recur row col k (num + 1) (setCell gf row col 0) := by
  conv_lhs => unfold tryNums
  rw [if_pos hv, hres]

theorem tryNums_step_invalid {recur : Grid → Bool × Grid} {row col num : Nat}
    {g : Grid} (k : Nat) (hv : ¬isValid g row col num = true) :
    tryNums recur row col (k + 1) num g =
      tryNums recur row col k (num + 1) g := by
  conv_lhs => unfold tryNums
  rw [if_neg hv]

theorem solveF_zero (g : Grid) : solveF 0 g = (false, g) := rfl

theorem solveF_step_none {g : Grid} (fuel : Nat)
    (hfe : findEmptyCell g = none) : solveF (fuel + 1) g = (true, g) := by
  unfold solveF
  rw [hfe]

theorem solveF_step_some {g : Grid} {r c : Nat} (fuel : Nat)
    (hfe : findEmptyCell g = some (r, c)) :
    solveF (fuel + 1) g = tryNums (solveF fuel) r c 9 1 g := by
  unfold solveF
  rw [hfe]

/-! ## A failed search restores the board (the backtrack step) -/

theorem tryNums_false_eq (recur : Grid → Bool × Grid) (row col : Nat)
    (hrec : ∀ h, (recur h).1 = false → (recur h).2 = h) :
    ∀ k num g, cell g row col = 0 →
      (tryNums recur row col k num g).1 = false →
      (tryNums recur row col k num g).2 = g := by
  intro k
  induction k with
  | zero =>
    intro num g _ _
    rfl
  | succ k ih =>
    intro num g h0 hf
    by_cases hv : isValid g row col num = true
    · cases hres : recur (setCell g row col num) with
      | mk b g' =>
        cases b with
        | true =>
          rw [tryNums_step_true k hv hres] at hf
          exact absurd hf (by simp)
        | false =>
          have hg' : g' = setCell g row col num := by
            have hx := hrec (setCell g row col num) (by rw [hres])
            rwa [hres] at hx
          have hback : setCell g' row col 0 = g := by
            rw [hg', setCell_setCell, setCell_zero_self h0]
          rw [tryNums_step_false k hv hres, hback] at hf ⊢
          exact ih (num + 1) g h0 hf
    · rw [tryNums_step_invalid k hv] at hf ⊢
      exact ih (num + 1) g h0 hf

/-- Whenever the search fails, the board it leaves behind is exactly the
board it was given: every tentative placement has been undone. -/
theorem solveF_false_eq : ∀ fuel g, (solveF fuel g).1 = false →
    (solveF fuel g).2 = g := by
  intro fuel
  induction fuel with
  | zero =>
    intro g _
    rfl
  | succ fuel ih =>
    intro g hf
    cases hfe : findEmptyCell g with
    | none =>
      rw [solveF_step_none fuel hfe] at hf
      exact absurd hf (by simp)
    | some rc =>
      obtain ⟨r, c⟩ := rc
      rw [solveF_step_some fuel hfe] at hf ⊢
      exact tryNums_false_eq (solveF fuel) r c ih 9 1 g
        (findEmptyCell_some_facts hfe).2.2 hf

/-! ## A successful search leaves no empty cell -/

theorem tryNums_true_none (recur : Grid → Bool × Grid) (row col : Nat)
    (hrec : ∀ h, (recur h).1 = true → findEmptyCell (recur h).2 = none) :
    ∀ k num g, (tryNums recur row col k num g).1 = true →
      findEmptyCell (tryNums recur row col k num g).2 = none := by
  intro k
  induction k with
  | zero =>
    intro num g ht
    exact absurd ht (by simp [tryNums])
  | succ k ih =>
    intro num g ht
    by_cases hv : isValid g row col num = true
    · cases hres : recur (setCell g row col num) with
      | mk b g' =>
        cases b with
        | true =>
          rw [tryNums_step_true k hv hres]
          have hx := hrec (setCell g row col num) (by rw [hres])
          rwa [hres] at hx
        | false =>
          rw [tryNums_step_false k hv hres] at ht ⊢
          exact ih (num + 1) _ ht
    · rw [tryNums_step_invalid k hv] at ht ⊢
      exact ih (num + 1) g ht

/-- A successful search returns a board with no empty cell (success arises
only from the `findEmptyCell` base case). -/
theorem solveF_true_none : ∀ fuel g, (solveF fuel g).1 = true →
    findEmptyCell (solveF fuel g).2 = none := by
  intro fuel
  induction fuel with
  | zero =>
    intro g ht
    exact absurd ht (by simp [solveF])
  | succ fuel ih =>
    intro g ht
    cases hfe : findEmptyCell g with
    | none =>
      rw [solveF_step_none fuel hfe]
      exact hfe
    | some rc =>
      obtain ⟨r, c⟩ := rc
      rw [solveF_step_some fuel hfe] at ht ⊢
      exact tryNums_true_none (solveF fuel) r c ih 9 1 g ht

/-! ## The solver never overwrites a non-zero cell (frame property) -/

theorem tryNums_frame (recur : Grid → Bool × Grid) (row col : Nat)
    (hrecF : ∀ h i j, cell h i j ≠ 0 → cell (recur h).2 i j = cell h i j)
    (hrec0 : ∀ h, (recur h).1 = false → (recur h).2 = h) :
    ∀ k num g, cell g row col = 0 → ∀ i j, cell g i j ≠ 0 →
      cell (tryNums recur row col k num g).2 i j = cell g i j := by
  intro k
  induction k with
  | zero =>
    intro num g _ i j _
    rfl
  | succ k ih =>
    intro num g h0 i j hij
    by_cases hv : isValid g row col num = true
    · have hne : ¬(i = row ∧ j = col) := by
        intro ⟨hi, hj⟩
        subst hi
        subst hj
        exact hij h0
      have hcell1 : cell (setCell g row col num) i j = cell g i j :=
        cell_setCell_ne g num hne
      cases hres : recur (setCell g row col num) with
      | mk b g' =>
        cases b with
        | true =>
          rw [tryNums_step_true k hv hres]
          have hx := hrecF (setCell g row col num) i j (by rw [hcell1]; exact hij)
          rw [hres] at hx
          rw [hx, hcell1]
        | false =>
          have hg' : g' = setCell g row col num := by
            have hx := hrec0 (setCell g row col num) (by rw [hres])
            rwa [hres] at hx
          have hback : setCell g' row col 0 = g := by
            rw [hg', setCell_setCell, setCell_zero_self h0]
          rw [tryNums_step_false k hv hres, hback]
          exact ih (num + 1) g h0 i j hij
    · rw [tryNums_step_invalid k hv]
      exact ih (num + 1) g h0 i j hij

/-- Every cell that is non-zero at entry holds exactly its entry value in the
board the search returns, on success and on failure alike. -/
theorem solveF_frame : ∀ fuel g i j, cell g i j ≠ 0 →
    cell (solveF fuel g).2 i j = cell g i j := by
  intro fuel
  induction fuel with
  | zero =>
    intro g i j _
    rfl
  | succ fuel ih =>
    intro g i j hij
    cases hfe : findEmptyCell g with
    | none =>
      rw [solveF_step_none fuel hfe]
    | some rc =>
      obtain ⟨r, c⟩ := rc
      rw [solveF_step_some fuel hfe]
      exact tryNums_frame (solveF fuel) r c ih (solveF_false_eq fuel) 9 1 g
        (findEmptyCell_some_facts hfe).2.2 i j hij

/-! ## The termination measure: `countZeros` -/

theorem countZeros_pos {g : Grid} {r c : Nat} (hr : r < 9) (hc : c < 9)
    (h0 : cell g r c = 0) : 0 < countZeros g := by
  unfold countZeros
  have h1 : (if cell g r c = 0 then 1 else 0) ≤
      ∑ j ∈ Finset.range 9, if cell g r j = 0 then 1 else 0 :=
    @Finset.single_le_sum Nat Nat _ (fun j => if cell g r j = 0 then 1 else 0)
      (Finset.range 9) (fun j _ => Nat.zero_le _) c (Finset.mem_range.mpr hc)
  have h2 : (∑ j ∈ Finset.range 9, if cell g r j = 0 then 1 else 0) ≤
      ∑ i ∈ Finset.range 9, ∑ j ∈ Finset.range 9, if cell g i j = 0 then 1 else 0 :=
    @Finset.single_le_sum Nat Nat _
      (fun i => ∑ j ∈ Finset.range 9, if cell g i j = 0 then 1 else 0)
      (Finset.range 9) (fun i _ => Nat.zero_le _) r (Finset.mem_range.mpr hr)
  rw [if_pos h0] at h1
  omega

theorem countZeros_setCell {g : Grid} (hwf : WF g) {r c v : Nat} (hr : r < 9)
    (hc : c < 9) (h0 : cell g r c = 0) (hv : v ≠ 0) :
    countZeros (setCell g r c v) + 1 = countZeros g := by
  unfold countZeros
  have hrm : r ∈ Finset.range 9 := Finset.mem_range.mpr hr
  have hcm : c ∈ Finset.range 9 := Finset.mem_range.mpr hc
  rw [← Finset.add_sum_erase _ _ hrm,
    ← Finset.add_sum_erase _ (fun i => ∑ j ∈ Finset.range 9,
      if cell g i j = 0 then 1 else 0) hrm]
  have houter : (∑ i ∈ (Finset.range 9).erase r, ∑ j ∈ Finset.range 9,
      if cell (setCell g r c v) i j = 0 then 1 else 0) =
      ∑ i ∈ (Finset.range 9).erase r, ∑ j ∈ Finset.range 9,
        if cell g i j = 0 then 1 else 0 := by
    apply Finset.sum_congr rfl
    intro i hi
    apply Finset.sum_congr rfl
    intro j _
    rw [cell_setCell_ne g v (fun hij => (Finset.mem_erase.mp hi).1 hij.1)]
  rw [houter]
  rw [← Finset.add_sum_erase _ _ hcm,
    ← Finset.add_sum_erase _ (fun j => if cell g r j = 0 then 1 else 0) hcm]
  have hinner : (∑ j ∈ (Finset.range 9).erase c,
      if cell (setCell g r c v) r j = 0 then 1 else 0) =
      ∑ j ∈ (Finset.range 9).erase c, if cell g r j = 0 then 1 else 0 := by
    apply Finset.sum_congr rfl
    intro j hj
    rw [cell_setCell_ne g v (fun hij => (Finset.mem_erase.mp hj).1 hij.2)]
  rw [hinner, cell_setCell_self hwf hr hc, if_neg hv, if_pos h0]
  omega

/-! ## Fuel irrelevance: the recursion terminates on the measure -/

theorem num_ne_zero_of_isValid {g : Grid} {row col num : Nat} (hc : col < 9)
    (h0 : cell g row col = 0) (hv : isValid g row col num = true) : num ≠ 0 := by
  intro hz
  have hrow := ((isValid_true_iff g row col num).mp hv).1 col hc
  rw [h0, hz] at hrow
  exact hrow rfl

theorem solveF_fuel_irrelevant (fuel : Nat) :
    ∀ fuel2 g, WF g → countZeros g < fuel → countZeros g < fuel2 →
      solveF fuel g = solveF fuel2 g := by
  induction fuel using Nat.strong_induction_on with
  | _ fuel IH =>
    intro fuel2 g hwf h1 h2
    cases fuel with
    | zero => omega
    | succ f1 =>
      cases fuel2 with
      | zero => omega
      | succ f2 =>
        cases hfe : findEmptyCell g with
        | none =>
          rw [solveF_step_none f1 hfe, solveF_step_none f2 hfe]
        | some rc =>
          obtain ⟨r, c⟩ := rc
          obtain ⟨hr, hc, h0⟩ := findEmptyCell_some_facts hfe
          rw [solveF_step_some f1 hfe, solveF_step_some f2 hfe]
          have inner : ∀ k num g', WF g' → cell g' r c = 0 →
              countZeros g' ≤ f1 → countZeros g' ≤ f2 →
              tryNums (solveF f1) r c k num g' =
                tryNums (solveF f2) r c k num g' := by
            intro k
            induction k with
            | zero =>
              intro num g' _ _ _ _
              rfl
            | succ k ihk =>
              intro num g' hwf' h0' hf1 hf2
              by_cases hv : isValid g' r c num = true
              · have hnum : num ≠ 0 := num_ne_zero_of_isValid hc h0' hv
                have hwf1 : WF (setCell g' r c num) := WF_setCell hwf' r c num
                have hcz : countZeros (setCell g' r c num) + 1 = countZeros g' :=
                  countZeros_setCell hwf' hr hc h0' hnum
                have hpos : 0 < countZeros g' := countZeros_pos hr hc h0'
                have heq : solveF f1 (setCell g' r c num) =
                    solveF f2 (setCell g' r c num) :=
                  IH f1 (by omega) f2 (setCell g' r c num) hwf1 (by omega)
                    (by omega)
                cases hres : solveF f2 (setCell g' r c num) with
                | mk b g2 =>
                  cases b with
                  | true =>
                    rw [tryNums_step_true k hv (heq.trans hres),
                      tryNums_step_true k hv hres]
                  | false =>
                    have hg2 : g2 = setCell g' r c num := by
                      have hx := solveF_false_eq f2 (setCell g' r c num)
                        (by rw [hres])
                      rwa [hres] at hx
                    have hback : setCell g2 r c 0 = g' := by
                      rw [hg2, setCell_setCell, setCell_zero_self h0']
                    rw [tryNums_step_false k hv (heq.trans hres),
                      tryNums_step_false k hv hres, hback]
                    exact ihk (num + 1) g' hwf' h0' hf1 hf2
              · rw [tryNums_step_invalid k hv, tryNums_step_invalid k hv]
                exact ihk (num + 1) g' hwf' h0' hf1 hf2
          exact inner 9 1 g hwf h0 (by omega) (by omega)

/-- Any fuel exceeding the number of empty cells yields the function the
source computes: the search is fuel-indifferent, i.e. it terminates. -/
theorem solveF_eq_solveSudoku {g : Grid} (hwf : WF g) {fuel : Nat}
    (h : countZeros g < fuel) : solveF fuel g = solveSudoku g :=
  solveF_fuel_irrelevant fuel (countZeros g + 1) g hwf h (by omega)

theorem sameUnit_symm {r1 c1 r2 c2 : Nat} (h : sameUnit r1 c1 r2 c2) :
    sameUnit r2 c2 r1 c1 := by
  rcases h with h | h | ⟨h1, h2⟩
  · exact Or.inl h.symm
  · exact Or.inr (Or.inl h.symm)
  · exact Or.inr (Or.inr ⟨h1.symm, h2.symm⟩)

/-- If `isValid` accepts `num` at `(row, col)`, then `num` occurs in no cell
sharing a row, column, or box with `(row, col)`. -/
theorem isValid_no_partner {g : Grid} {row col num : Nat} (hrow : row < 9)
    (hcol : col < 9) (hv : isValid g row col num = true) :
    ∀ i j, i < 9 → j < 9 → sameUnit i j row col → cell g i j ≠ num := by
  obtain ⟨hr, hc, hb⟩ := (isValid_true_iff g row col num).mp hv
  intro i j hi hj hsu
  rcases hsu with h | h | ⟨h1, h2⟩
  · rw [h]
    exact hr j hj
  · rw [h]
    exact hc i hi
  · have ha : i = row / 3 * 3 + (i - row / 3 * 3) ∧ i - row / 3 * 3 < 3 := by
      omega
    have hbb : j = col / 3 * 3 + (j - col / 3 * 3) ∧ j - col / 3 * 3 < 3 := by
      omega
    have hx := hb (i - row / 3 * 3) ha.2 (j - col / 3 * 3) hbb.2
    rwa [← ha.1, ← hbb.1] at hx

theorem consistent_setCell {g : Grid} (hwf : WF g) (hcons : consistent g)
    {row col num : Nat} (hrow : row < 9) (hcol : col < 9)
    (h0 : cell g row col = 0) (hnum : num ≠ 0)
    (hv : isValid g row col num = true) : consistent (setCell g row col num) := by
  intro r1 hr1 c1 hc1 r2 hr2 c2 hc2 hsu hne hnz
  by_cases he1 : r1 = row ∧ c1 = col
  · obtain ⟨rfl, rfl⟩ := he1
    rw [cell_setCell_self hwf hrow hcol] at *
    have he2 : ¬(r2 = r1 ∧ c2 = c1) := fun hx => hne ⟨hx.1.symm, hx.2.symm⟩
    rw [cell_setCell_ne g num (fun hx => he2 hx)]
    exact isValid_no_partner hrow hcol hv r2 c2 hr2 hc2 (sameUnit_symm hsu)
  · rw [cell_setCell_ne g num he1] at *
    by_cases he2 : r2 = row ∧ c2 = col
    · obtain ⟨rfl, rfl⟩ := he2
      rw [cell_setCell_self hwf hrow hcol]
      exact fun hx =>
        isValid_no_partner hrow hcol hv r1 c1 hr1 hc1 hsu hx.symm
    · rw [cell_setCell_ne g num he2]
      exact hcons r1 hr1 c1 hc1 r2 hr2 c2 hc2 hsu hne hnz

theorem inRange_setCell {g : Grid} (hwf : WF g) (hir : inRange g)
    {row col num : Nat} (hrow : row < 9) (hcol : col < 9) (hnum : num ≤ 9) :
    inRange (setCell g row col num) := by
  intro i hi j hj
  by_cases he : i = row ∧ j = col
  · obtain ⟨rfl, rfl⟩ := he
    rw [cell_setCell_self hwf hrow hcol]
    exact hnum
  · rw [cell_setCell_ne g num he]
    exact hir i hi j hj

/-! ## Soundness: a successful search preserves the grid invariants -/

theorem tryNums_true_sound (recur : Grid → Bool × Grid) (row col : Nat)
    (hrow : row < 9) (hcol : col < 9)
    (hrec : ∀ h, WF h → inRange h → consistent h → (recur h).1 = true →
      WF (recur h).2 ∧ inRange (recur h).2 ∧ consistent (recur h).2)
    (hrec0 : ∀ h, (recur h).1 = false → (recur h).2 = h) :
    ∀ k num g, WF g → inRange g → consistent g → cell g row col = 0 →
      num + k = 10 →
      (tryNums recur row col k num g).1 = true →
      WF (tryNums recur row col k num g).2 ∧
        inRange (tryNums recur row col k num g).2 ∧
        consistent (tryNums recur row col k num g).2 := by
  intro k
  induction k with
  | zero =>
    intro num g _ _ _ _ _ ht
    exact absurd ht (by simp [tryNums])
  | succ k ih =>
    intro num g hwf hir hcons h0 hk ht
    by_cases hv : isValid g row col num = true
    · have hnum0 : num ≠ 0 := num_ne_zero_of_isValid hcol h0 hv
      have hwf1 : WF (setCell g row col num) := WF_setCell hwf row col num
      have hir1 : inRange (setCell g row col num) :=
        inRange_setCell hwf hir hrow hcol (by omega)
      have hcons1 : consistent (setCell g row col num) :=
        consistent_setCell hwf hcons hrow hcol h0 hnum0 hv
      cases hres : recur (setCell g row col num) with
      | mk b g2 =>
        cases b with
        | true =>
          rw [tryNums_step_true k hv hres] at ht ⊢
          have hx := hrec (setCell g row col num) hwf1 hir1 hcons1
            (by rw [hres])
          rwa [hres] at hx
        | false =>
          have hg2 : g2 = setCell g row col num := by
            have hx := hrec0 (setCell g row col num) (by rw [hres])
            rwa [hres] at hx
          have hback : setCell g2 row col 0 = g := by
            rw [hg2, setCell_setCell, setCell_zero_self h0]
          rw [tryNums_step_false k hv hres, hback] at ht ⊢
          exact ih (num + 1) g hwf hir hcons h0 (by omega) ht
    · rw [tryNums_step_invalid k hv] at ht ⊢
      exact ih (num + 1) g hwf hir hcons h0 (by omega) ht

/-- On success the returned board is well-formed, has values in range, and
satisfies all row/column/box uniqueness constraints, provided the input
board did. -/
theorem solveF_true_sound : ∀ fuel g, WF g → inRange g → consistent g →
    (solveF fuel g).1 = true →
    WF (solveF fuel g).2 ∧ inRange (solveF fuel g).2 ∧
      consistent (solveF fuel g).2 := by
  intro fuel
  induction fuel with
  | zero =>
    intro g _ _ _ ht
    exact absurd ht (by simp [solveF])
  | succ fuel ih =>
    intro g hwf hir hcons ht
    cases hfe : findEmptyCell g with
    | none =>
      rw [solveF_step_none fuel hfe] at ht ⊢
      exact ⟨hwf, hir, hcons⟩
    | some rc =>
      obtain ⟨r, c⟩ := rc
      obtain ⟨hr, hc, h0⟩ := findEmptyCell_some_facts hfe
      rw [solveF_step_some fuel hfe] at ht ⊢
      exact tryNums_true_sound (solveF fuel) r c hr hc ih
        (solveF_false_eq fuel) 9 1 g hwf hir hcons h0 (by omega) ht

/-! ## A generic invariant preserved by every placement the search makes -/

theorem tryNums_true_inv (P : Grid → Prop) (recur : Grid → Bool × Grid)
    (row col : Nat)
    (hstep : ∀ h num, P h → cell h row col = 0 → 1 ≤ num → num ≤ 9 →
      isValid h row col num = true → P (setCell h row col num))
    (hrec : ∀ h, P h → (recur h).1 = true → P (recur h).2)
    (hrec0 : ∀ h, (recur h).1 = false → (recur h).2 = h) :
    ∀ k num g, P g → cell g row col = 0 → num + k = 10 → 1 ≤ num →
      (tryNums recur row col k num g).1 = true →
      P (tryNums recur row col k num g).2 := by
  intro k
  induction k with
  | zero =>
    intro num g _ _ _ _ ht
    exact absurd ht (by simp [tryNums])
  | succ k ih =>
    intro num g hP h0 hk h1 ht
    by_cases hv : isValid g row col num = true
    · have hP1 : P (setCell g row col num) :=
        hstep g num hP h0 h1 (by omega) hv
      cases hres : recur (setCell g row col num) with
      | mk b g2 =>
        cases b with
        | true =>
          rw [tryNums_step_true k hv hres]
          have hx := hrec (setCell g row col num) hP1 (by rw [hres])
          rwa [hres] at hx
        | false =>
          have hg2 : g2 = setCell g row col num := by
            have hx := hrec0 (setCell g row col num) (by rw [hres])
            rwa [hres] at hx
          have hback : setCell g2 row col 0 = g := by
            rw [hg2, setCell_setCell, setCell_zero_self h0]
          rw [tryNums_step_false k hv hres, hback] at ht ⊢
          exact ih (num + 1) g hP h0 (by omega) (by omega) ht
    · rw [tryNums_step_invalid k hv] at ht ⊢
      exact ih (num + 1) g hP h0 (by omega) (by omega) ht

/-- Any property preserved by every `isValid`-approved placement of a digit
`1`-`9` at an empty cell is preserved by a successful search. -/
theorem solveF_true_inv (P : Grid → Prop)
    (hstep : ∀ h r c num, P h → r < 9 → c < 9 → cell h r c = 0 → 1 ≤ num →
      num ≤ 9 → isValid h r c num = true → P (setCell h r c num)) :
    ∀ fuel g, P g → (solveF fuel g).1 = true → P (solveF fuel g).2 := by
  intro fuel
  induction fuel with
  | zero =>
    intro g _ ht
    exact absurd ht (by simp [solveF])
  | succ fuel ih =>
    intro g hP ht
    cases hfe : findEmptyCell g with
    | none =>
      rw [solveF_step_none fuel hfe] at ht ⊢
      exact hP
    | some rc =>
      obtain ⟨r, c⟩ := rc
      obtain ⟨hr, hc, h0⟩ := findEmptyCell_some_facts hfe
      rw [solveF_step_some fuel hfe] at ht ⊢
      exact tryNums_true_inv P (solveF fuel) r c
        (fun h num hP' h0' h1' h9' hv' => hstep h r c num hP' hr hc h0' h1' h9' hv')
        ih (solveF_false_eq fuel) 9 1 g hP h0 (by omega) (by omega) ht

theorem placedDistinct_refl (g0 : Grid) : placedDistinct g0 g0 := by
  intro r1 _ c1 _ r2 _ c2 _ _ _ hz hnz
  exact absurd hz hnz

theorem placedDistinct_setCell {g0 g : Grid} (hwf : WF g)
    (hpd : placedDistinct g0 g) {row col num : Nat} (hrow : row < 9)
    (hcol : col < 9) (h0 : cell g row col = 0)
    (hv : isValid g row col num = true) :
    placedDistinct g0 (setCell g row col num) := by
  intro r1 hr1 c1 hc1 r2 hr2 c2 hc2 hsu hne hz1 hnz1
  by_cases he1 : r1 = row ∧ c1 = col
  · obtain ⟨rfl, rfl⟩ := he1
    rw [cell_setCell_self hwf hrow hcol] at *
    have he2 : ¬(r2 = r1 ∧ c2 = c1) := fun hx => hne ⟨hx.1.symm, hx.2.symm⟩
    rw [cell_setCell_ne g num (fun hx => he2 hx)]
    exact isValid_no_partner hrow hcol hv r2 c2 hr2 hc2 (sameUnit_symm hsu)
  · rw [cell_setCell_ne g num he1] at *
    by_cases he2 : r2 = row ∧ c2 = col
    · obtain ⟨rfl, rfl⟩ := he2
      rw [cell_setCell_self hwf hrow hcol]
      exact fun hx =>
        isValid_no_partner hrow hcol hv r1 c1 hr1 hc1 hsu hx.symm
    · rw [cell_setCell_ne g num he2]
      exact hpd r1 hr1 c1 hc1 r2 hr2 c2 hc2 hsu hne hz1 hnz1

/-- On success, every cell the solver filled is distinct from every other
cell of its units (`WF` is carried along to locate the updates). -/
theorem solveF_true_placedDistinct (g0 : Grid) :
    ∀ fuel g, WF g → placedDistinct g0 g → (solveF fuel g).1 = true →
      WF (solveF fuel g).2 ∧ placedDistinct g0 (solveF fuel g).2 :=
  fun fuel g hwf hpd =>
    solveF_true_inv (fun h => WF h ∧ placedDistinct g0 h)
      (fun h r c num hP hr hc h0 _ _ hv =>
        ⟨WF_setCell hP.1 r c num,
          placedDistinct_setCell hP.1 hP.2 hr hc h0 hv⟩)
      fuel g ⟨hwf, hpd⟩

theorem extendsG_refl (g : Grid) : extendsG g g := fun _ _ _ _ _ => rfl

theorem extendsG_setCell {g h : Grid} (hwf : WF g) (hext : extendsG g h)
    {r c : Nat} (hr : r < 9) (hc : c < 9) (h0 : cell g r c = 0)
    (hval : cell h r c = cell (setCell g r c (cell h r c)) r c → True) :
    extendsG (setCell g r c (cell h r c)) h := by
  intro i hi j hj hnz
  by_cases he : i = r ∧ j = c
  · obtain ⟨rfl, rfl⟩ := he
    rw [cell_setCell_self hwf hr hc]
  · rw [cell_setCell_ne g (cell h r c) he] at hnz ⊢
    exact hext i hi j hj hnz

/-- The digit a solved extension `h` holds at an empty cell of `g` is a
valid candidate there: it clashes with no cell of `g`. -/
theorem isValid_of_solved_extends {g h : Grid} {r c : Nat}
    (hs : solvedGrid h) (hext : extendsG g h) (hr : r < 9) (hc : c < 9)
    (h0 : cell g r c = 0) : isValid g r c (cell h r c) = true := by
  obtain ⟨hwfh, hirh, hconsh, hnzh⟩ := hs
  have hv0 : cell h r c ≠ 0 := hnzh r hr c hc
  apply (isValid_true_iff g r c (cell h r c)).mpr
  refine ⟨fun j hj => ?_, fun i hi => ?_, fun a ha b hb => ?_⟩
  · by_cases hz : cell g r j = 0
    · rw [hz]
      exact fun hx => hv0 hx.symm
    · rw [← hext r hr j hj hz]
      have hjc : j ≠ c := by
        intro hx
        subst hx
        exact hz h0
      exact hconsh r hr c hc r hr j hj (Or.inl rfl)
        (fun hx => hjc hx.2.symm) hv0
  · by_cases hz : cell g i c = 0
    · rw [hz]
      exact fun hx => hv0 hx.symm
    · rw [← hext i hi c hc hz]
      have hir : i ≠ r := by
        intro hx
        subst hx
        exact hz h0
      exact hconsh r hr c hc i hi c hc (Or.inr (Or.inl rfl))
        (fun hx => hir hx.1.symm) hv0
  · have hia : r / 3 * 3 + a < 9 := by omega
    have hjb : c / 3 * 3 + b < 9 := by omega
    by_cases hz : cell g (r / 3 * 3 + a) (c / 3 * 3 + b) = 0
    · rw [hz]
      exact fun hx => hv0 hx.symm
    · rw [← hext _ hia _ hjb hz]
      have hne : ¬(r = r / 3 * 3 + a ∧ c = c / 3 * 3 + b) := by
        intro ⟨hx, hy⟩
        rw [← hx, ← hy] at hz
        exact hz h0
      exact hconsh r hr c hc (r / 3 * 3 + a) hia (c / 3 * 3 + b) hjb
        (Or.inr (Or.inr ⟨by omega, by omega⟩)) hne hv0

/-! ## Completeness: if a solved extension exists, the search succeeds -/

theorem solveF_complete (h : Grid) (hs : solvedGrid h) :
    ∀ fuel g, WF g → countZeros g < fuel → extendsG g h →
      (solveF fuel g).1 = true := by
  intro fuel
  induction fuel using Nat.strong_induction_on with
  | _ fuel IH =>
    intro g hwf hfuel hext
    cases fuel with
    | zero => omega
    | succ f =>
      cases hfe : findEmptyCell g with
      | none =>
        rw [solveF_step_none f hfe]
      | some rc =>
        obtain ⟨r, c⟩ := rc
        obtain ⟨hr, hc, h0⟩ := findEmptyCell_some_facts hfe
        rw [solveF_step_some f hfe]
        have hv9 : cell h r c ≤ 9 := hs.2.1 r hr c hc
        have hv1 : 1 ≤ cell h r c :=
          Nat.one_le_iff_ne_zero.mpr (hs.2.2.2 r hr c hc)
        have inner : ∀ k num g', WF g' → extendsG g' h → cell g' r c = 0 →
            countZeros g' ≤ f → num ≤ cell h r c → cell h r c < num + k →
            (tryNums (solveF f) r c k num g').1 = true := by
          intro k
          induction k with
          | zero =>
            intro num g' _ _ _ _ hle hlt
            omega
          | succ k ihk =>
            intro num g' hwf' hext' h0' hf' hle hlt
            have hvalid : isValid g' r c (cell h r c) = true :=
              isValid_of_solved_extends hs hext' hr hc h0'
            have hposz : 0 < countZeros g' := countZeros_pos hr hc h0'
            by_cases hv : isValid g' r c num = true
            · cases hres : solveF f (setCell g' r c num) with
              | mk b g2 =>
                cases b with
                | true =>
                  rw [tryNums_step_true k hv hres]
                | false =>
                  have hnum : num ≠ cell h r c := by
                    intro hx
                    have hwf1 : WF (setCell g' r c num) :=
                      WF_setCell hwf' r c num
                    have hext1 : extendsG (setCell g' r c num) h := by
                      rw [hx]
                      exact extendsG_setCell hwf' hext' hr hc h0'
                        (fun _ => trivial)
                    have hcz : countZeros (setCell g' r c num) + 1 =
                        countZeros g' :=
                      countZeros_setCell hwf' hr hc h0' (by omega)
                    have hT := IH f (by omega) (setCell g' r c num) hwf1
                      (by omega) hext1
                    rw [hres] at hT
                    exact absurd hT (by simp)
                  have hg2 : g2 = setCell g' r c num := by
                    have hx := solveF_false_eq f (setCell g' r c num)
                      (by rw [hres])
                    rwa [hres] at hx
                  have hback : setCell g2 r c 0 = g' := by
                    rw [hg2, setCell_setCell, setCell_zero_self h0']
                  rw [tryNums_step_false k hv hres, hback]
                  exact ihk (num + 1) g' hwf' hext' h0' hf' (by omega)
                    (by omega)
            · have hnum : num ≠ cell h r c := by
                intro hx
                rw [hx] at hv
                exact hv hvalid
              rw [tryNums_step_invalid k hv]
              exact ihk (num + 1) g' hwf' hext' h0' hf' (by omega) (by omega)
        exact inner 9 1 g hwf hext h0 (by omega) (by omega) (by omega)

theorem mem_oneToNine {x : Nat} : x ∈ oneToNine ↔ 1 ≤ x ∧ x ≤ 9 := by
  simp only [oneToNine, List.mem_cons, List.not_mem_nil, or_false]
  omega

theorem image_eq_Icc (f : Nat → Nat)
    (hinj : ∀ a, a < 9 → ∀ b, b < 9 → a ≠ b → f a ≠ f b)
    (hrange : ∀ a, a < 9 → 1 ≤ f a ∧ f a ≤ 9) :
    (Finset.range 9).image f = Finset.Icc 1 9 := by
  apply Finset.eq_of_subset_of_card_le
  · intro x hx
    obtain ⟨a, ha, rfl⟩ := Finset.mem_image.mp hx
    exact Finset.mem_Icc.mpr (hrange a (Finset.mem_range.mp ha))
  · rw [Nat.card_Icc,
      Finset.card_image_of_injOn (fun a ha b hb hfeq => by
        by_contra hne
        exact hinj a (Finset.mem_range.mp ha) b (Finset.mem_range.mp hb)
          hne hfeq),
      Finset.card_range]

theorem exists_preimage (f : Nat → Nat)
    (hinj : ∀ a, a < 9 → ∀ b, b < 9 → a ≠ b → f a ≠ f b)
    (hrange : ∀ a, a < 9 → 1 ≤ f a ∧ f a ≤ 9)
    {d : Nat} (hd1 : 1 ≤ d) (hd9 : d ≤ 9) : ∃ j, j < 9 ∧ f j = d := by
  have hd : d ∈ (Finset.range 9).image f := by
    rw [image_eq_Icc f hinj hrange]
    exact Finset.mem_Icc.mpr ⟨hd1, hd9⟩
  obtain ⟨j, hj, hfj⟩ := Finset.mem_image.mp hd
  exact ⟨j, Finset.mem_range.mp hj, hfj⟩

/-- Pigeonhole: nine pairwise-distinct values in `[1, 9]` hit each digit
exactly once. -/
theorem filter_card_one (f : Nat → Nat)
    (hinj : ∀ a, a < 9 → ∀ b, b < 9 → a ≠ b → f a ≠ f b)
    (hrange : ∀ a, a < 9 → 1 ≤ f a ∧ f a ≤ 9)
    {d : Nat} (hd1 : 1 ≤ d) (hd9 : d ≤ 9) :
    ((Finset.range 9).filter (fun j => f j = d)).card = 1 := by
  obtain ⟨j0, hj0, hfj0⟩ := exists_preimage f hinj hrange hd1 hd9
  rw [Finset.card_eq_one]
  refine ⟨j0, ?_⟩
  ext x
  simp only [Finset.mem_filter, Finset.mem_range, Finset.mem_singleton]
  constructor
  · intro ⟨hx9, hfx⟩
    by_contra hne
    exact hinj x hx9 j0 hj0 hne (by rw [hfx, hfj0])
  · intro hx
    subst hx
    exact ⟨hj0, hfj0⟩

theorem perm_oneToNine (f : Nat → Nat)
    (hinj : ∀ a, a < 9 → ∀ b, b < 9 → a ≠ b → f a ≠ f b)
    (hrange : ∀ a, a < 9 → 1 ≤ f a ∧ f a ≤ 9) :
    ((List.range 9).map f).Perm oneToNine := by
  apply List.perm_of_nodup_nodup_toFinset_eq
  · apply List.Nodup.map_on ?_ (List.nodup_range 9)
    intro x hx y hy hf
    by_contra hne
    exact hinj x (List.mem_range.mp hx) y (List.mem_range.mp hy) hne hf
  · decide
  · apply List.toFinset.ext
    intro x
    constructor
    · intro hx
      obtain ⟨j, hj, rfl⟩ := List.mem_map.mp hx
      have hb := hrange j (List.mem_range.mp hj)
      exact mem_oneToNine.mpr hb
    · intro hx
      have hb := mem_oneToNine.mp hx
      obtain ⟨j, hj9, hfj⟩ := exists_preimage f hinj hrange hb.1 hb.2
      exact List.mem_map.mpr ⟨j, List.mem_range.mpr hj9, hfj⟩

theorem rowList_perm {g : Grid} (hir : inRange g) (hcons : consistent g)
    (hnz : noZero g) {i : Nat} (hi : i < 9) :
    (rowList g i).Perm oneToNine := by
  apply perm_oneToNine
  · intro a ha b hb hne
    exact fun hx =>
      hcons i hi b hb i hi a ha (Or.inl rfl)
        (fun hp => hne hp.2.symm) (hnz i hi b hb) hx
  · intro a ha
    exact ⟨Nat.one_le_iff_ne_zero.mpr (hnz i hi a ha), hir i hi a ha⟩

theorem colList_perm {g : Grid} (hir : inRange g) (hcons : consistent g)
    (hnz : noZero g) {j : Nat} (hj : j < 9) :
    (colList g j).Perm oneToNine := by
  apply perm_oneToNine
  · intro a ha b hb hne
    exact fun hx =>
      hcons b hb j hj a ha j hj (Or.inr (Or.inl rfl))
        (fun hp => hne hp.1.symm) (hnz b hb j hj) hx
  · intro a ha
    exact ⟨Nat.one_le_iff_ne_zero.mpr (hnz a ha j hj), hir a ha j hj⟩

theorem boxList_perm {g : Grid} (hir : inRange g) (hcons : consistent g)
    (hnz : noZero g) {b : Nat} (hb : b < 9) :
    (boxList g b).Perm oneToNine := by
  apply perm_oneToNine
  · intro s hs t ht hne
    have hr1 : b / 3 * 3 + s / 3 < 9 := by omega
    have hc1 : b % 3 * 3 + s % 3 < 9 := by omega
    have hr2 : b / 3 * 3 + t / 3 < 9 := by omega
    have hc2 : b % 3 * 3 + t % 3 < 9 := by omega
    intro hx
    exact hcons (b / 3 * 3 + t / 3) hr2 (b % 3 * 3 + t % 3) hc2
      (b / 3 * 3 + s / 3) hr1 (b % 3 * 3 + s % 3) hc1
      (Or.inr (Or.inr ⟨by omega, by omega⟩))
      (fun hp => hne (by omega))
      (hnz _ hr2 _ hc2) hx
  · intro t ht
    have hr : b / 3 * 3 + t / 3 < 9 := by omega
    have hc : b % 3 * 3 + t % 3 < 9 := by omega
    exact ⟨Nat.one_le_iff_ne_zero.mpr (hnz _ hr _ hc), hir _ hr _ hc⟩

/-! ## Further invariants of a successful search -/

/-- A successful search preserves well-formedness and the value range, with
no consistency assumption on the input. -/
theorem solveF_true_wf_inRange :
    ∀ fuel g, WF g → inRange g → (solveF fuel g).1 = true →
      WF (solveF fuel g).2 ∧ inRange (solveF fuel g).2 :=
  fun fuel g hwf hir =>
    solveF_true_inv (fun h => WF h ∧ inRange h)
      (fun h r c num hP hr hc _ _ h9 _ =>
        ⟨WF_setCell hP.1 r c num, inRange_setCell hP.1 hP.2 hr hc h9⟩)
      fuel g ⟨hwf, hir⟩

/-- A board with no empty cell is returned unchanged with success, with no
validity check whatsoever. -/
theorem solveSudoku_noZero {g : Grid} (hnz : noZero g) :
    solveSudoku g = (true, g) :=
  solveF_step_none (countZeros g) ((findEmptyCell_eq_none_iff g).mpr hnz)

/-- Two well-formed boards with equal cells are equal. -/
theorem grid_eq_of_cellwise {g h : Grid} (hwfg : WF g) (hwfh : WF h)
    (hcell : ∀ i, i < 9 → ∀ j, j < 9 → cell g i j = cell h i j) : g = h := by
  have hlg : g.length = 9 := hwfg.1
  have hlh : h.length = 9 := hwfh.1
  apply List.ext_getElem (by omega)
  intro i hi1 hi2
  have hi9 : i < 9 := by omega
  have hgi : g.getD i [] = g[i] := by
    rw [List.getD_eq_getElem?_getD, List.getElem?_eq_getElem hi1]
    rfl
  have hhi : h.getD i [] = h[i] := by
    rw [List.getD_eq_getElem?_getD, List.getElem?_eq_getElem hi2]
    rfl
  have hlgi : (g[i]).length = 9 := by
    rw [← hgi]
    exact row_length hwfg hi9
  have hlhi : (h[i]).length = 9 := by
    rw [← hhi]
    exact row_length hwfh hi9
  apply List.ext_getElem (by omega)
  intro j hj1 hj2
  have hj9 : j < 9 := by omega
  have hx := hcell i hi9 j hj9
  unfold cell at hx
  rw [hgi, hhi] at hx
  rw [List.getD_eq_getElem?_getD, List.getElem?_eq_getElem hj1] at hx
  rw [List.getD_eq_getElem?_getD, List.getElem?_eq_getElem hj2] at hx
  exact hx

theorem theSingle_eq_some {l : List Nat} {t : Nat}
    (h : theSingle l = some t) : l = [t] := by
  match l with
  | [] => exact absurd h (by simp [theSingle])
  | [a] =>
    have hx : some a = some t := h
    have ha : a = t := Option.some.inj hx
    rw [ha]
  | a :: b :: rest => exact absurd h (by simp [theSingle])

theorem propagateCell_inv {h : Grid} (hs : solvedGrid h) :
    ∀ g k, WF g ∧ extendsG g h →
      WF (propagateCell g k) ∧ extendsG (propagateCell g k) h := by
  intro g k ⟨hwf, hext⟩
  unfold propagateCell
  by_cases h0 : cell g (k / 9) (k % 9) = 0
  · rw [if_pos h0]
    cases hts : theSingle (cands g (k / 9) (k % 9)) with
    | none => exact ⟨hwf, hext⟩
    | some t =>
      by_cases hk : k / 9 < 9
      · have hj : k % 9 < 9 := by omega
        have hvd : cell h (k / 9) (k % 9) ≠ 0 := hs.2.2.2 _ hk _ hj
        have hv9 : cell h (k / 9) (k % 9) ≤ 9 := hs.2.1 _ hk _ hj
        have hvalid : isValid g (k / 9) (k % 9) (cell h (k / 9) (k % 9)) = true :=
          isValid_of_solved_extends hs hext hk hj h0
        have hmem : cell h (k / 9) (k % 9) - 1 ∈ cands g (k / 9) (k % 9) := by
          unfold cands
          rw [List.mem_filter]
          refine ⟨List.mem_range.mpr (by omega), ?_⟩
        -- `num - 1 + 1 = num` for the non-zero digit of `h`
          have : cell h (k / 9) (k % 9) - 1 + 1 = cell h (k / 9) (k % 9) := by
            omega
          rw [this]
          exact hvalid
        have hteq : cell h (k / 9) (k % 9) = t + 1 := by
          rw [theSingle_eq_some hts] at hmem
          have := List.mem_singleton.mp hmem
          omega
        refine ⟨WF_setCell hwf _ _ _, ?_⟩
        show extendsG (setCell g (k / 9) (k % 9) (t + 1)) h
        rw [← hteq]
        exact extendsG_setCell hwf hext hk hj h0 (fun _ => trivial)
      · show WF (setCell g (k / 9) (k % 9) (t + 1)) ∧
          extendsG (setCell g (k / 9) (k % 9) (t + 1)) h
        have hset : setCell g (k / 9) (k % 9) (t + 1) = g := by
          unfold setCell
          exact List.set_eq_of_length_le (by rw [hwf.1]; omega)
        rw [hset]
        exact ⟨hwf, hext⟩
  · rw [if_neg h0]
    exact ⟨hwf, hext⟩

theorem foldl_inv {α : Type} (P : Grid → Prop) (f : Grid → α → Grid)
    (hf : ∀ g a, P g → P (f g a)) :
    ∀ l g, P g → P (List.foldl f g l) := by
  intro l
  induction l with
  | nil =>
    intro g hP
    exact hP
  | cons a l ih =>
    intro g hP
    exact ih (f g a) (hf g a hP)

theorem propagate_inv {h : Grid} (hs : solvedGrid h) :
    ∀ n g, WF g → extendsG g h →
      WF (propagate n g) ∧ extendsG (propagate n g) h := by
  intro n
  induction n with
  | zero =>
    intro g hwf hext
    exact ⟨hwf, hext⟩
  | succ n ih =>
    intro g hwf hext
    have hpass := foldl_inv (fun x => WF x ∧ extendsG x h) propagateCell
      (fun x a hP => propagateCell_inv hs x a hP) (List.range 81) g ⟨hwf, hext⟩
    exact ih (fillPass g) hpass.1 hpass.2

/-- If propagation from `g` reaches a complete board `s`, then `s` is the
only solved extension of `g`. -/
theorem unique_of_propagate {g s : Grid} {n : Nat} (hwfg : WF g) (hwfs : WF s)
    (hnzs : noZero s) (hprop : propagate n g = s) :
    ∀ h, solvedGrid h → extendsG g h → h = s := by
  intro h hs hext
  have hinv := propagate_inv hs n g hwfg hext
  rw [hprop] at hinv
  apply grid_eq_of_cellwise hs.1 hwfs
  intro i hi j hj
  exact hinv.2 i hi j hj (hnzs i hi j hj)

set_option maxRecDepth 10000 in
theorem fillPass_exGrid : fillPass exGrid = fpass1 := by decide

set_option maxRecDepth 10000 in
theorem fillPass_fpass1 : fillPass fpass1 = fpass2 := by decide

set_option maxRecDepth 10000 in
theorem fillPass_fpass2 : fillPass fpass2 = fpass3 := by decide

set_option maxRecDepth 10000 in
theorem fillPass_fpass3 : fillPass fpass3 = fpass4 := by decide

set_option maxRecDepth 10000 in
theorem fillPass_fpass4 : fillPass fpass4 = exSolution := by decide

/-- Naked-singles propagation completes the canonical example in five
sweeps. -/
theorem propagate_exGrid : propagate 5 exGrid = exSolution := by
  show propagate 4 (fillPass exGrid) = exSolution
  rw [fillPass_exGrid]
  show propagate 3 (fillPass fpass1) = exSolution
  rw [fillPass_fpass1]
  show propagate 2 (fillPass fpass2) = exSolution
  rw [fillPass_fpass2]
  show propagate 1 (fillPass fpass3) = exSolution
  rw [fillPass_fpass3]
  show propagate 0 (fillPass fpass4) = exSolution
  rw [fillPass_fpass4]
  rfl

/-- The canonical example has exactly one solved completion. -/
theorem exGrid_unique (h : Grid) (hs : solvedGrid h)
    (hext : extendsG exGrid h) : h = exSolution :=
  unique_of_propagate (by decide) (by decide) (by decide) propagate_exGrid h
    hs hext

/-- The solver succeeds on the canonical example and returns its unique
solution (established through completeness, soundness and uniqueness of the
completion — not by replaying the search). -/
theorem solveSudoku_exGrid : solveSudoku exGrid = (true, exSolution) := by
  have hsol : solvedGrid exSolution := by decide
  have hext : extendsG exGrid exSolution := by decide
  have hwfe : WF exGrid := by decide
  have ht : (solveSudoku exGrid).1 = true :=
    solveF_complete exSolution hsol (countZeros exGrid + 1) exGrid hwfe
      (by omega) hext
  have hsound : WF (solveSudoku exGrid).2 ∧ inRange (solveSudoku exGrid).2 ∧
      consistent (solveSudoku exGrid).2 :=
    solveF_true_sound (countZeros exGrid + 1) exGrid hwfe (by decide)
      (by decide) ht
  have hnz : noZero (solveSudoku exGrid).2 :=
    (findEmptyCell_eq_none_iff _).mp
      (solveF_true_none (countZeros exGrid + 1) exGrid ht)
  have hextr : extendsG exGrid (solveSudoku exGrid).2 :=
    fun i _ j _ hnz0 => solveF_frame (countZeros exGrid + 1) exGrid i j hnz0
  have h2 : (solveSudoku exGrid).2 = exSolution :=
    exGrid_unique (solveSudoku exGrid).2
      ⟨hsound.1, hsound.2.1, hsound.2.2, hnz⟩ hextr
  exact Prod.ext ht h2

/-! ## The contradictory givens of `grid11` admit no successful search -/

theorem sum_row_col (g : Grid) (d : Nat) :
    (∑ i ∈ Finset.range 9,
      ((Finset.range 9).filter (fun j => cell g i j = d)).card) =
    ∑ j ∈ Finset.range 9,
      ((Finset.range 9).filter (fun i => cell g i j = d)).card := by
  simp only [Finset.card_filter]
  exact Finset.sum_comm

/-- The counting contradiction, stated for an abstract final board `r`:
if every column contains `1` exactly once, yet row 0 holds two `1`s at
cells 0 and 1 and rows 1-8 hold exactly one `1` each, we get `9 ≥ 10`. -/
theorem grid11_no_completion (r : Grid) (hwfr : WF r)
    (hpdr : placedDistinct grid11 r) (hnzr : noZero r) (hirr : inRange r)
    (h00 : cell r 0 0 = 1) (h01 : cell r 0 1 = 1) : False := by
  have hz11 : ∀ i, i < 9 → ∀ j, j < 9 → 1 ≤ i → cell grid11 i j = 0 := by
    decide
  have colinj : ∀ j, j < 9 → ∀ a, a < 9 → ∀ b, b < 9 → a ≠ b →
      cell r a j ≠ cell r b j := by
    intro j hj a ha b hb hne
    by_cases ha0 : a = 0
    · subst ha0
      exact hpdr b hb j hj 0 (by omega) j hj (Or.inr (Or.inl rfl))
        (fun hx => hne hx.1.symm) (hz11 b hb j hj (by omega))
        (hnzr b hb j hj)
    · exact (hpdr a ha j hj b hb j hj (Or.inr (Or.inl rfl))
        (fun hx => hne hx.1) (hz11 a ha j hj (by omega))
        (hnzr a ha j hj)).symm
  have rowinj : ∀ i, 1 ≤ i → i < 9 → ∀ a, a < 9 → ∀ b, b < 9 → a ≠ b →
      cell r i a ≠ cell r i b :=
    fun i h1 h9 a ha b hb hne =>
      hpdr i h9 b hb i h9 a ha (Or.inl rfl)
        (fun hx => hne hx.2.symm) (hz11 i h9 b hb h1) (hnzr i h9 b hb)
  have rowrange : ∀ i, i < 9 → ∀ a, a < 9 →
      1 ≤ cell r i a ∧ cell r i a ≤ 9 :=
    fun i hi a ha =>
      ⟨Nat.one_le_iff_ne_zero.mpr (hnzr i hi a ha), hirr i hi a ha⟩
  have hrowcnt : ∀ i, 1 ≤ i → i < 9 →
      ((Finset.range 9).filter (fun j => cell r i j = 1)).card = 1 :=
    fun i h1 h9 =>
      filter_card_one _ (rowinj i h1 h9) (rowrange i h9) (by omega) (by omega)
  have hcolcnt : ∀ j, j < 9 →
      ((Finset.range 9).filter (fun i => cell r i j = 1)).card = 1 :=
    fun j hj =>
      filter_card_one _ (colinj j hj) (fun a ha => rowrange a ha j hj)
        (by omega) (by omega)
  have hrow0 : 2 ≤ ((Finset.range 9).filter
      (fun j => cell r 0 j = 1)).card := by
    have hsub : ({0, 1} : Finset Nat) ⊆ (Finset.range 9).filter
        (fun j => cell r 0 j = 1) := by
      intro x hx
      rcases Finset.mem_insert.mp hx with rfl | hx1
      · exact Finset.mem_filter.mpr ⟨Finset.mem_range.mpr (by omega), h00⟩
      · rw [Finset.mem_singleton.mp hx1]
        exact Finset.mem_filter.mpr ⟨Finset.mem_range.mpr (by omega), h01⟩
    have hcard : ({0, 1} : Finset Nat).card = 2 := by decide
    calc 2 = ({0, 1} : Finset Nat).card := hcard.symm
      _ ≤ _ := Finset.card_le_card hsub
  have hcols : (∑ i ∈ Finset.range 9, ((Finset.range 9).filter
      (fun j => cell r i j = 1)).card) = 9 := by
    rw [sum_row_col,
      Finset.sum_congr rfl (fun j hj => hcolcnt j (Finset.mem_range.mp hj)),
      Finset.sum_const, Finset.card_range]
    simp
  have h0mem : (0 : Nat) ∈ Finset.range 9 := by decide
  have hrows : 10 ≤ ∑ i ∈ Finset.range 9, ((Finset.range 9).filter
      (fun j => cell r i j = 1)).card := by
    rw [← Finset.sum_erase_add _ _ h0mem]
    have herase : (∑ i ∈ (Finset.range 9).erase 0,
        ((Finset.range 9).filter (fun j => cell r i j = 1)).card) = 8 := by
      rw [Finset.sum_congr rfl (fun i hi => by
        obtain ⟨hne, hmem⟩ := Finset.mem_erase.mp hi
        exact hrowcnt i (by omega) (Finset.mem_range.mp hmem)),
        Finset.sum_const, Finset.card_erase_of_mem h0mem, Finset.card_range]
      simp
    rw [herase]
    omega
  omega

/-- The search cannot succeed on `grid11`: a successful final board would
contain the digit `1` exactly once per column (nine `1`s in total) but at
least twice in row 0 and exactly once in each of rows 1-8 (ten `1`s). -/
theorem solveSudoku_grid11_false : (solveSudoku grid11).1 = false := by
  by_cases hb : (solveSudoku grid11).1 = true
  case neg =>
    simpa using hb
  case pos =>
    exfalso
    have hwf11 : WF grid11 := by decide
    have hir11 : inRange grid11 := by decide
    have hpd : WF (solveSudoku grid11).2 ∧
        placedDistinct grid11 (solveSudoku grid11).2 :=
      solveF_true_placedDistinct grid11 (countZeros grid11 + 1) grid11 hwf11
        (placedDistinct_refl grid11) hb
    have hnzr : noZero (solveSudoku grid11).2 :=
      (findEmptyCell_eq_none_iff _).mp
        (solveF_true_none (countZeros grid11 + 1) grid11 hb)
    have hir_r : inRange (solveSudoku grid11).2 :=
      (solveF_true_wf_inRange (countZeros grid11 + 1) grid11 hwf11 hir11 hb).2
    have h00 : cell (solveSudoku grid11).2 0 0 = 1 := by
      have hx : cell (solveSudoku grid11).2 0 0 = cell grid11 0 0 :=
        solveF_frame (countZeros grid11 + 1) grid11 0 0 (by decide)
      rw [hx]
      rfl
    have h01 : cell (solveSudoku grid11).2 0 1 = 1 := by
      have hx : cell (solveSudoku grid11).2 0 1 = cell grid11 0 1 :=
        solveF_frame (countZeros grid11 + 1) grid11 0 1 (by decide)
      rw [hx]
      rfl
    exact grid11_no_completion (solveSudoku grid11).2 hpd.1 hpd.2 hnzr hir_r
      h00 h01

/-! # The claims -/

/-- C1: for every well-formed 9x9 input grid (81 cells, each value in
`[0, 9]`) whose non-zero cells satisfy the row/column/box uniqueness
constraints against the other non-zero cells, if `solve(grid)` returns true
then the grid it leaves behind has no zeros and every row, every column, and
every 3x3 box is a permutation of `1`-`9`. -/
theorem claim_C1 (g : Grid) (hwf : WF g) (hir : inRange g)
    (hcons : consistent g) (ht : (solveSudoku g).1 = true) :
    noZero (solveSudoku g).2 ∧
      (∀ i, i < 9 → (rowList (solveSudoku g).2 i).Perm oneToNine) ∧
      (∀ j, j < 9 → (colList (solveSudoku g).2 j).Perm oneToNine) ∧
      (∀ b, b < 9 → (boxList (solveSudoku g).2 b).Perm oneToNine) := by
  have hsound : WF (solveSudoku g).2 ∧ inRange (solveSudoku g).2 ∧
      consistent (solveSudoku g).2 :=
    solveF_true_sound (countZeros g + 1) g hwf hir hcons ht
  have hnz : noZero (solveSudoku g).2 :=
    (findEmptyCell_eq_none_iff _).mp (solveF_true_none (countZeros g + 1) g ht)
  exact ⟨hnz,
    fun i hi => rowList_perm hsound.2.1 hsound.2.2 hnz hi,
    fun j hj => colList_perm hsound.2.1 hsound.2.2 hnz hj,
    fun b hb => boxList_perm hsound.2.1 hsound.2.2 hnz hb⟩

set_option maxRecDepth 10000 in
/-- Witness for C1 at the consistent board `gOne` (one empty cell). -/
theorem claim_C1_witness :
    noZero (solveSudoku gOne).2 ∧
      (∀ i, i < 9 → (rowList (solveSudoku gOne).2 i).Perm oneToNine) ∧
      (∀ j, j < 9 → (colList (solveSudoku gOne).2 j).Perm oneToNine) ∧
      (∀ b, b < 9 → (boxList (solveSudoku gOne).2 b).Perm oneToNine) :=
  claim_C1 gOne (by decide) (by decide) (by decide) (by decide)

/-- C2, counterexample to the claim as stated: the all-ones board holds two
identical non-zero digits in row 0 (cells `(0,0)` and `(0,1)` both hold `1`),
yet `solve` returns true on it, not false. -/
theorem claim_C2_counterexample :
    cell allOnes 0 0 = 1 ∧ cell allOnes 0 1 = 1 ∧
      (solveSudoku allOnes).1 = true := by decide

/-- C2, amended: for the grid whose row 0 is `[1,1,0,0,0,0,0,0,0]` and whose
other 72 cells are all `0`, `solve` returns false.  (The universal form of
the claim fails on boards without empty cells: see
`claim_C2_counterexample`.) -/
theorem claim_C2 : (solveSudoku grid11).1 = false :=
  solveSudoku_grid11_false

/-- C3: whenever `solve(grid)` returns false, the grid at return is
identical, cell for cell, to the grid at entry: every tentative placement of
the failed search has been undone, including at the top-level call. -/
theorem claim_C3 (g : Grid) (hf : (solveSudoku g).1 = false) :
    (solveSudoku g).2 = g :=
  solveF_false_eq (countZeros g + 1) g hf

set_option maxRecDepth 10000 in
/-- Witness for C3 at `gBad`, an unsolvable board. -/
theorem claim_C3_witness :
    (solveSudoku gBad).1 = false ∧ (solveSudoku gBad).2 = gBad :=
  ⟨by decide, claim_C3 gBad (by decide)⟩

/-- C4: for every 9x9 input grid with no zero cells whose rows, columns and
boxes contain no repeated digit, `solve` returns true and leaves every cell
unchanged (solving an already-solved grid is the identity on it). -/
theorem claim_C4 (g : Grid) (hnz : noZero g) (hcons : consistent g) :
    solveSudoku g = (true, g) :=
  solveSudoku_noZero hnz

/-- Witness for C4 at the solved board `exSolution`. -/
theorem claim_C4_witness :
    noZero exSolution ∧ consistent exSolution ∧
      solveSudoku exSolution = (true, exSolution) :=
  ⟨by decide, by decide, claim_C4 exSolution (by decide) (by decide)⟩

/-- C5: for every well-formed 9x9 input grid the search terminates: the
number of empty cells strictly decreases at every recursive call and each
cell has at most 9 candidates, so any fuel exceeding the number of empty
cells computes one and the same total result, `solveSudoku g`. -/
theorem claim_C5 (g : Grid) (hwf : WF g) :
    ∀ fuel, countZeros g < fuel → solveF fuel g = solveSudoku g :=
  fun _ h => solveF_eq_solveSudoku hwf h

set_option maxRecDepth 10000 in
/-- Witness for C5 at `gBad` with fuel 3. -/
theorem claim_C5_witness :
    WF gBad ∧ countZeros gBad < 3 ∧ solveF 3 gBad = solveSudoku gBad :=
  ⟨by decide, by decide, claim_C5 gBad (by decide) 3 (by decide)⟩

/-- C6: `findEmptyCell` returns the coordinates `(r, c)` of the first cell
holding `0` when the grid is scanned in row-major order (row 0 col 0, row 0
col 1, ..., row 8 col 8), and returns `none` exactly when every cell is
non-zero. -/
theorem claim_C6 (g : Grid) :
    (∀ r c, findEmptyCell g = some (r, c) ↔
      r < 9 ∧ c < 9 ∧ cell g r c = 0 ∧
        ∀ r' c', r' < 9 → c' < 9 → (r' < r ∨ (r' = r ∧ c' < c)) →
          cell g r' c' ≠ 0) ∧
    (findEmptyCell g = none ↔ noZero g) :=
  ⟨fun r c => findEmptyCell_eq_some_iff g r c, findEmptyCell_eq_none_iff g⟩

/-- C7: for every 9x9 grid, every cell `(row, col)` holding `0`, and every
candidate digit `1`-`9`, `isValid` returns true iff the candidate occurs in
no cell of row `row`, no cell of column `col`, and no cell of the 3x3 box
containing `(row, col)` (the box of `(i, j)` is indexed `(i / 3, j / 3)`).
The embedding of `isValid` is a pure function of the grid, so it does not
modify the grid. -/
theorem claim_C7 (g : Grid) (row col num : Nat) (hrow : row < 9)
    (hcol : col < 9) (h0 : cell g row col = 0) (h1 : 1 ≤ num) (h9 : num ≤ 9) :
    isValid g row col num = true ↔
      (∀ j, j < 9 → cell g row j ≠ num) ∧
      (∀ i, i < 9 → cell g i col ≠ num) ∧
      (∀ i j, i < 9 → j < 9 → i / 3 = row / 3 → j / 3 = col / 3 →
        cell g i j ≠ num) := by
  rw [isValid_true_iff]
  constructor
  · intro ⟨hr, hc, hbx⟩
    refine ⟨hr, hc, fun i j hi hj hdi hdj => ?_⟩
    have ha : i = row / 3 * 3 + (i - row / 3 * 3) ∧ i - row / 3 * 3 < 3 := by
      omega
    have hb : j = col / 3 * 3 + (j - col / 3 * 3) ∧ j - col / 3 * 3 < 3 := by
      omega
    have hx := hbx _ ha.2 _ hb.2
    rwa [← ha.1, ← hb.1] at hx
  · intro ⟨hr, hc, hbx⟩
    refine ⟨hr, hc, fun a ha b hb => ?_⟩
    exact hbx (row / 3 * 3 + a) (col / 3 * 3 + b) (by omega) (by omega)
      (by omega) (by omega)

/-- Witness for C7 at cell `(0, 2)` of the canonical example with
candidate 4. -/
theorem claim_C7_witness :
    isValid exGrid 0 2 4 = true ↔
      (∀ j, j < 9 → cell exGrid 0 j ≠ 4) ∧
      (∀ i, i < 9 → cell exGrid i 2 ≠ 4) ∧
      (∀ i j, i < 9 → j < 9 → i / 3 = 0 / 3 → j / 3 = 2 / 3 →
        cell exGrid i j ≠ 4) :=
  claim_C7 exGrid 0 2 4 (by decide) (by decide) (by decide) (by decide)
    (by decide)

/-- C8: on the canonical example grid, `solve` returns true and transforms
the grid into `exSolution`, the unique valid completion of the puzzle
(every solved board extending the givens equals it). -/
theorem claim_C8 :
    solveSudoku exGrid = (true, exSolution) ∧
      solvedGrid exSolution ∧ extendsG exGrid exSolution ∧
      ∀ h, solvedGrid h → extendsG exGrid h → h = exSolution :=
  ⟨solveSudoku_exGrid, by decide, by decide, exGrid_unique⟩

/-- C9: every cell that is non-zero at entry holds exactly its entry value
in the board the call returns, whether the call returns true or false.  The
statement holds for every fuel and every board, so it applies to every
recursive call of the search, i.e. to every intermediate state: the solver
writes only to cells holding `0` (the cells `findEmptyCell` locates). -/
theorem claim_C9 (g : Grid) (i j : Nat) (hnz : cell g i j ≠ 0) :
    (∀ fuel, cell (solveF fuel g).2 i j = cell g i j) ∧
      cell (solveSudoku g).2 i j = cell g i j :=
  ⟨fun fuel => solveF_frame fuel g i j hnz,
    solveF_frame (countZeros g + 1) g i j hnz⟩

/-- Witness for C9 at cell `(0, 0)` of `gOne`. -/
theorem claim_C9_witness :
    (∀ fuel, cell (solveF fuel gOne).2 0 0 = cell gOne 0 0) ∧
      cell (solveSudoku gOne).2 0 0 = cell gOne 0 0 :=
  claim_C9 gOne 0 0 (by decide)

/-- C10: every 9x9 grid containing no zero cell is returned unchanged with
result true, even when it violates the row/column/box uniqueness
constraints: the base case performs no consistency check, so a contradictory
zero-free grid is reported as solved rather than unsolvable. -/
theorem claim_C10 (g : Grid) (hnz : noZero g) : solveSudoku g = (true, g) :=
  solveSudoku_noZero hnz

/-- Witness for C10 at the all-ones board, which is contradictory (row 0
holds `1` twice) yet zero-free. -/
theorem claim_C10_witness :
    noZero allOnes ∧ cell allOnes 0 0 = cell allOnes 0 1 ∧
      cell allOnes 0 0 ≠ 0 ∧ solveSudoku allOnes = (true, allOnes) :=
  ⟨by decide, by decide, by decide, claim_C10 allOnes (by decide)⟩

end Sudoku
